import Mathlib

/-!
Verification of the xtctool binary codecs and pipeline utilities.

The definitions below are a shallow embedding of the Python sources:
`xtctool/core/xtc.py`, `xtctool/core/xth.py`, `xtctool/core/xtg.py`,
`xtctool/algo/dithering.py`, `xtctool/utils/pages.py`,
`xtctool/assets/base.py`, `xtctool/assets/xtframe.py`,
`xtctool/assets/image.py`, `xtctool/assets/xtcontainer.py` and
`xtctool/cli/convert.py`.

Bytes are modelled as natural numbers, byte strings as `List Nat`,
Python `str` values as `List Char`, fallible operations
(`struct.pack`/`struct.unpack` range and buffer errors, `raise`)
as `Except String`.
-/

namespace Xtctool

/-- Decidable equality for `Except`, needed to evaluate concrete codec runs. -/
instance {ε α : Type} [DecidableEq ε] [DecidableEq α] : DecidableEq (Except ε α) := fun a b =>
  match a, b with
  | .ok x, .ok y => if h : x = y then .isTrue (by rw [h]) else .isFalse (by simp [h])
  | .error x, .error y => if h : x = y then .isTrue (by rw [h]) else .isFalse (by simp [h])
  | .ok _, .error _ => .isFalse (by simp)
  | .error _, .ok _ => .isFalse (by simp)

/-! Byte packing primitives: little-endian fixed-width integers, as produced by
Python `struct.pack('<H' | '<I' | '<Q' | '<B', v)` and read back by
`struct.unpack` on a slice.  `struct.pack` raises `struct.error` when the value
does not fit the field, `struct.unpack` raises when the buffer is too short. -/

/-- Little-endian byte list of length `k` for the value `v` (`v / 256^j % 256` at index `j`). -/
def leBytes (k v : Nat) : List Nat := (List.range k).map (fun j => v / 256 ^ j % 256)

/-- Model of `struct.pack` for an unsigned little-endian field of `k` bytes. -/
def packLE (k v : Nat) : Except String (List Nat) :=
  if v < 256 ^ k then .ok (leBytes k v) else .error "struct.error: argument out of range"

/-- Little-endian read of `k` bytes of `data` starting at `off` (missing bytes read as 0;
callers go through `unpackLE`, which checks the buffer length first). -/
def readLE (data : List Nat) : Nat → Nat → Nat
  | _, 0 => 0
  | off, k + 1 => data.getD off 0 + 256 * readLE data (off + 1) k

/-- Model of `struct.unpack` of one unsigned little-endian field of `k` bytes from
the slice `data[off : off+k]`. -/
def unpackLE (k : Nat) (data : List Nat) (off : Nat) : Except String Nat :=
  if off + k ≤ data.length then .ok (readLE data off k)
  else .error "struct.error: unpack requires a buffer of the right size"

@[simp] theorem length_leBytes (k v : Nat) : (leBytes k v).length = k := by
  simp [leBytes]

theorem leBytes_succ (k v : Nat) :
    leBytes (k + 1) v = v % 256 :: leBytes k (v / 256) := by
  unfold leBytes
  rw [List.range_succ_eq_map]
  simp only [List.map_cons, List.map_map, pow_zero, Nat.div_one]
  congr 1
  apply List.map_congr_left
  intro j _
  simp only [Function.comp]
  rw [Nat.div_div_eq_div_mul, pow_succ, mul_comm]

theorem readLE_append_right (A B : List Nat) (off k : Nat) :
    readLE (A ++ B) (A.length + off) k = readLE B off k := by
  induction k generalizing off with
  | zero => simp [readLE]
  | succ k ih =>
    unfold readLE
    rw [List.getD_eq_getElem?_getD, List.getElem?_append_right (by omega)]
    have h1 : A.length + off - A.length = off := by omega
    have h2 : A.length + off + 1 = A.length + (off + 1) := by omega
    rw [h1, h2, ih, ← List.getD_eq_getElem?_getD]

theorem readLE_leBytes (k v : Nat) (B : List Nat) (hv : v < 256 ^ k) :
    readLE (leBytes k v ++ B) 0 k = v := by
  induction k generalizing v B with
  | zero =>
    simp only [pow_zero, Nat.lt_one_iff] at hv
    simp [readLE, hv]
  | succ k ih =>
    rw [leBytes_succ]
    unfold readLE
    simp only [List.cons_append, List.getD_cons_zero]
    have : readLE ((v % 256 :: leBytes k (v / 256)) ++ B) (0 + 1) k
        = readLE (leBytes k (v / 256) ++ B) 0 k := by
      have := readLE_append_right [v % 256] (leBytes k (v / 256) ++ B) 0 k
      simpa using this
    simp only [List.cons_append] at this
    rw [this, ih (v / 256) B (by
      have h256 : (0:Nat) < 256 := by norm_num
      rw [pow_succ] at hv
      exact Nat.div_lt_of_lt_mul (by omega))]
    omega

theorem readLE_field (data A B : List Nat) (v off k : Nat)
    (hdata : data = A ++ (leBytes k v ++ B)) (hoff : off = A.length)
    (hv : v < 256 ^ k) : readLE data off k = v := by
  subst hdata hoff
  have := readLE_append_right A (leBytes k v ++ B) 0 k
  rw [Nat.add_zero] at this
  rw [this, readLE_leBytes k v B hv]

theorem unpackLE_field (data A B : List Nat) (v off k : Nat)
    (hdata : data = A ++ (leBytes k v ++ B)) (hoff : off = A.length)
    (hv : v < 256 ^ k) : unpackLE k data off = .ok v := by
  have hlen : off + k ≤ data.length := by
    subst hdata hoff
    simp [List.length_append]
  unfold unpackLE
  rw [if_pos hlen, readLE_field data A B v off k hdata hoff hv]

theorem packLE_ok (k v : Nat) (hv : v < 256 ^ k) : packLE k v = .ok (leBytes k v) := by
  simp [packLE, hv]

/-! XTH codec (`xtctool/core/xth.py`): 4-level grayscale, two bit planes.

The claims quantify over an already quantized grid (values 0..3), so the
embedding enters `XTHWriter.encode` after `_convert_to_4level`: the grid is a
function `pv : Nat → Nat → Nat` indexed `(row, column)` like the numpy array
`pixel_values[y, x]`. -/

/-- Magic constant of the XTH format (bytes "XTH\x00" little-endian). -/
def xthMagic : Nat := 0x00485458

/-- Lookup `lut_map = {0: 0, 1: 2, 2: 1, 3: 3}` from `_encode_bitplanes`.
The Python dict raises `KeyError` above 3; the claims restrict pixel values to
0..3, values above 3 are mapped to themselves here. -/
def lutMap : Nat → Nat
  | 0 => 0
  | 1 => 2
  | 2 => 1
  | 3 => 3
  | n + 4 => n + 4

/-- Lookup `lut_reverse = {0: 0, 2: 1, 1: 2, 3: 3}` from `XTHReader.decode`,
read with `lut_reverse.get(val, val)`, so values above 3 map to themselves. -/
def lutReverse : Nat → Nat
  | 0 => 0
  | 1 => 2
  | 2 => 1
  | 3 => 3
  | n + 4 => n + 4

/-- Remap of `_encode_bitplanes`: `mapped_values = 3 - lut_map[...]` (LUT swap then
hardware-polarity invert). -/
def mappedVal (g : Nat) : Nat := 3 - lutMap g

/-- Bit extraction in `_encode_bitplanes`: `bit1 = (pixel_val >> 1) & 1` for the high
plane, `bit2 = pixel_val & 1` for the low plane. -/
def packBit (hi : Bool) (m : Nat) : Nat := if hi then (m >>> 1) &&& 1 else m &&& 1

/-- Number of 8-row bands of a column: the length of Python `range(0, height, 8)`. -/
def numBands (h : Nat) : Nat := (h + 7) / 8

/-- Band start rows `range(0, height, 8)` = `[0, 8, 16, ...]`. -/
def bandStarts (h : Nat) : List Nat := (List.range (numBands h)).map (· * 8)

/-- Column order `range(width - 1, -1, -1)`: columns scanned right to left. -/
def colsRTL (w : Nat) : List Nat := (List.range w).reverse

/-- Iteration order of both `_encode_bitplanes` and `XTHReader.decode`:
`for x in range(width-1, -1, -1): for y in range(0, height, 8)`. -/
def xthGroups (w h : Nat) : List (Nat × Nat) :=
  (colsRTL w).flatMap (fun x => (bandStarts h).map (fun y => (x, y)))

/-- One packed byte of a plane: 8 vertical pixels of column `x` starting at row `y`,
MSB = topmost row; rows past the image bottom contribute no bit
(`if y + i < height: byte |= bit << (7 - i)`). -/
def packGroupByte (pv : Nat → Nat → Nat) (h : Nat) (hi : Bool) (x y : Nat) : Nat :=
  (List.range 8).foldl (fun byte i =>
    if y + i < h then byte ||| (packBit hi (mappedVal (pv (y + i) x)) <<< (7 - i)) else byte) 0

/-- One full bit plane of `_encode_bitplanes` (the per-group bytes appended in
iteration order). -/
def xthPlane (pv : Nat → Nat → Nat) (w h : Nat) (hi : Bool) : List Nat :=
  (xthGroups w h).map (fun g => packGroupByte pv h hi g.1 g.2)

/-- Model of `XTHWriter.encode` from the quantized grid on: 22-byte header
(magic u32, width u16, height u16, colorMode u8 = 0, compression u8 = 0,
dataSize u32, checksum u64 = byte sum masked to 64 bits) followed by plane 1
then plane 2. -/
def xthEncode (pv : Nat → Nat → Nat) (w h : Nat) : Except String (List Nat) := do
  let plane1 := xthPlane pv w h true
  let plane2 := xthPlane pv w h false
  let dataSize := plane1.length + plane2.length
  let checksum := (plane1.sum + plane2.sum) % 2 ^ 64
  let mB ← packLE 4 xthMagic
  let wB ← packLE 2 w
  let hB ← packLE 2 h
  let cmB ← packLE 1 0
  let cpB ← packLE 1 0
  let dsB ← packLE 4 dataSize
  let csB ← packLE 8 checksum
  .ok (mB ++ wB ++ hB ++ cmB ++ cpB ++ dsB ++ csB ++ plane1 ++ plane2)

/-- Decoded grayscale image: dimensions from the frame header plus the pixel
array (`pixels[r, c]`, zero-initialised like `np.zeros`). -/
structure GrayImage where
  width : Nat
  height : Nat
  pix : Nat → Nat → Nat

/-- Per-pixel value reconstruction of `XTHReader.decode`:
`bit1`/`bit2` from the planes, `val = (bit1 << 1) | bit2`, reverse the invert
(`3 - val`), reverse the LUT, scale by 85. -/
def decodePixelVal (byte1 byte2 i : Nat) : Nat :=
  lutReverse (3 - ((((byte1 >>> (7 - i)) &&& 1) <<< 1) ||| ((byte2 >>> (7 - i)) &&& 1))) * 85

/-- One iteration of the decoder's group loop: state is `(bit_idx, pixels)`;
`byte_idx = bit_idx // 8`, missing plane bytes read as 0
(`plane[byte_idx] if byte_idx < len(plane) else 0`), the inner loop writes
`pixels[y + i, x]` for the valid rows of the band, then `bit_idx += 8`. -/
def xthDecodeStep (plane1 plane2 : List Nat) (height : Nat)
    (st : Nat × (Nat → Nat → Nat)) (g : Nat × Nat) : Nat × (Nat → Nat → Nat) :=
  (st.1 + 8,
    (List.range 8).foldl (fun px i =>
      if g.2 + i < height then
        (fun r c => if r = g.2 + i ∧ c = g.1 then
            decodePixelVal (plane1.getD (st.1 / 8) 0) (plane2.getD (st.1 / 8) 0) i
          else px r c)
      else px) st.2)

/-- Model of `XTHReader.decode`: parse the header, split the payload in half into
the two planes, then run the same right-to-left column-banded loop as the
encoder to rebuild the pixel array. -/
def xthDecode (data : List Nat) : Except String GrayImage := do
  let magic ← unpackLE 4 data 0
  if magic ≠ xthMagic then
    Except.error "Invalid XTH magic"
  else do
    let width ← unpackLE 2 data 4
    let height ← unpackLE 2 data 6
    let bitplaneData := data.drop 22
    let bitplaneSize := bitplaneData.length / 2
    let plane1 := bitplaneData.take bitplaneSize
    let plane2 := bitplaneData.drop bitplaneSize
    let st := (xthGroups width height).foldl (xthDecodeStep plane1 plane2 height)
      (0, fun _ _ => 0)
    .ok ⟨width, height, st.2⟩

theorem packBit_le_one (hi : Bool) (m : Nat) : packBit hi m ≤ 1 := by
  cases hi <;> simp [packBit, Nat.and_one_is_mod] <;> omega

theorem testBit_bit_self (b : Nat) (hb : b ≤ 1) (k : Nat) :
    (b <<< k).testBit k = decide (b = 1) := by
  interval_cases b <;> simp [Nat.testBit_shiftLeft]

theorem testBit_bit_ne (b k p : Nat) (hb : b ≤ 1) (hne : k ≠ p) :
    (b <<< k).testBit p = false := by
  rw [Nat.testBit_shiftLeft]
  by_cases h : k ≤ p
  · have h1 : 1 ≤ p - k := by omega
    have hlt : b < 2 ^ (p - k) := lt_of_le_of_lt hb (Nat.one_lt_two_pow (by omega))
    simp [Nat.testBit_lt_two_pow hlt]
  · simp [ge_iff_le, h]

theorem testBit_foldl_or (l : List Nat) (g : Nat → Nat) (a p : Nat) :
    (l.foldl (fun acc j => acc ||| g j) a).testBit p
      = (a.testBit p || l.any (fun j => (g j).testBit p)) := by
  induction l generalizing a with
  | nil => simp
  | cons j l ih =>
    rw [List.foldl_cons, ih, List.any_cons]
    simp [Nat.testBit_lor, Bool.or_assoc]

theorem packGroupByte_eq_foldl_or (pv : Nat → Nat → Nat) (h : Nat) (hi : Bool) (x y : Nat) :
    packGroupByte pv h hi x y
      = (List.range 8).foldl (fun byte i =>
          byte ||| (if y + i < h then packBit hi (mappedVal (pv (y + i) x)) <<< (7 - i) else 0))
          0 := by
  unfold packGroupByte
  congr 1
  funext byte i
  split <;> simp [Nat.or_zero]

theorem list_any_single {α : Type} (l : List α) (f : α → Bool) (i : α) (hi : i ∈ l)
    (hothers : ∀ j ∈ l, j ≠ i → f j = false) : l.any f = f i := by
  induction l with
  | nil => cases hi
  | cons j l ih =>
    rw [List.any_cons]
    rcases List.mem_cons.mp hi with h | h
    · subst h
      by_cases hmem : i ∈ l
      · rw [ih hmem (fun j hj hne => hothers j (List.mem_cons_of_mem _ hj) hne)]
        cases f i <;> simp
      · have : l.any f = false := by
          rw [List.any_eq_false]
          intro j hj
          have := hothers j (List.mem_cons_of_mem _ hj) (fun he => hmem (he ▸ hj))
          simp [this]
        simp [this]
    · rw [ih h (fun j hj hne => hothers j (List.mem_cons_of_mem _ hj) hne)]
      by_cases hji : j = i
      · subst hji; cases f j <;> simp
      · rw [hothers j (List.mem_cons_self _ _) hji]; simp

theorem packGroupByte_extract (pv : Nat → Nat → Nat) (h : Nat) (hi : Bool) (x y i : Nat)
    (hi8 : i < 8) (hvalid : y + i < h) :
    ((packGroupByte pv h hi x y) >>> (7 - i)) &&& 1 = packBit hi (mappedVal (pv (y + i) x)) := by
  set b := packBit hi (mappedVal (pv (y + i) x)) with hbdef
  have hb : b ≤ 1 := packBit_le_one _ _
  have htb : (packGroupByte pv h hi x y).testBit (7 - i) = decide (b = 1) := by
    rw [packGroupByte_eq_foldl_or, testBit_foldl_or, Nat.zero_testBit, Bool.false_or]
    rw [list_any_single (List.range 8) _ i (List.mem_range.mpr hi8)]
    · rw [if_pos hvalid, ← hbdef, testBit_bit_self b hb]
    · intro j hj hne
      rw [List.mem_range] at hj
      by_cases hc : y + j < h
      · rw [if_pos hc]
        exact testBit_bit_ne _ _ _ (packBit_le_one _ _) (by omega)
      · rw [if_neg hc]
        exact Nat.zero_testBit _
  have hmod : (packGroupByte pv h hi x y) / 2 ^ (7 - i) % 2 < 2 := Nat.mod_lt _ (by norm_num)
  have hdm := @Nat.testBit_to_div_mod (7 - i) (packGroupByte pv h hi x y)
  rw [htb] at hdm
  have hiff : ((packGroupByte pv h hi x y) / 2 ^ (7 - i) % 2 = 1) ↔ (b = 1) := by
    constructor
    · intro hx; exact of_decide_eq_true (hdm.trans (decide_eq_true hx))
    · intro hx; exact of_decide_eq_true (hdm.symm.trans (decide_eq_true hx))
  rw [Nat.and_one_is_mod, Nat.shiftRight_eq_div_pow]
  omega

theorem decode_inner_write (height x y : Nat) (v : Nat → Nat) (l : List Nat)
    (px : Nat → Nat → Nat) (r c : Nat) :
    (l.foldl (fun px i =>
        if y + i < height then
          (fun r c => if r = y + i ∧ c = x then v i else px r c)
        else px) px) r c
      = if c = x ∧ r < height ∧ r ∈ l.map (y + ·) then v (r - y) else px r c := by
  induction l generalizing px with
  | nil => simp
  | cons i l ih =>
    rw [List.foldl_cons, ih]
    simp only [ite_apply, List.map_cons, List.mem_cons]
    by_cases hcx : c = x
    · by_cases hrh : r < height
      · by_cases hmem : r ∈ l.map (y + ·)
        · rw [if_pos (show c = x ∧ r < height ∧ r ∈ l.map (y + ·) from ⟨hcx, hrh, hmem⟩),
            if_pos (show c = x ∧ r < height ∧ (r = y + i ∨ r ∈ l.map (y + ·)) from
              ⟨hcx, hrh, Or.inr hmem⟩)]
        · rw [if_neg (by tauto : ¬(c = x ∧ r < height ∧ r ∈ l.map (y + ·)))]
          by_cases hri : r = y + i
          · rw [if_pos (show c = x ∧ r < height ∧ (r = y + i ∨ r ∈ l.map (y + ·)) from
                ⟨hcx, hrh, Or.inl hri⟩),
              if_pos (show y + i < height by omega),
              if_pos (show r = y + i ∧ c = x from ⟨hri, hcx⟩)]
            congr 1
            omega
          · rw [if_neg (by tauto : ¬(c = x ∧ r < height ∧ (r = y + i ∨ r ∈ l.map (y + ·))))]
            split
            · rw [if_neg (by tauto : ¬(r = y + i ∧ c = x))]
            · rfl
      · rw [if_neg (by tauto : ¬(c = x ∧ r < height ∧ r ∈ l.map (y + ·))),
          if_neg (by tauto : ¬(c = x ∧ r < height ∧ (r = y + i ∨ r ∈ l.map (y + ·))))]
        split
        · rename_i hih
          rw [if_neg (by rintro ⟨hre, -⟩; exact hrh (hre ▸ hih))]
        · rfl
    · rw [if_neg (by tauto : ¬(c = x ∧ r < height ∧ r ∈ l.map (y + ·))),
        if_neg (by tauto : ¬(c = x ∧ r < height ∧ (r = y + i ∨ r ∈ l.map (y + ·))))]
      split
      · rw [if_neg (by tauto : ¬(r = y + i ∧ c = x))]
      · rfl

theorem getD_map_lt {α β : Type} (l : List α) (f : α → β) (p : Nat) (hp : p < l.length)
    (d : β) (d' : α) : (l.map f).getD p d = f (l.getD p d') := by
  rw [List.getD_eq_getElem?_getD, List.getElem?_map, List.getD_eq_getElem?_getD,
    List.getElem?_eq_getElem hp]
  simp

theorem xthDecode_fold (pv : Nat → Nat → Nat) (h : Nat) (plane1 plane2 : List Nat)
    (L : List (Nat × Nat)) (k : Nat) (px : Nat → Nat → Nat)
    (hband : ∀ g ∈ L, g.2 % 8 = 0)
    (hb1 : ∀ p, p < L.length →
      plane1.getD (k + p) 0 = packGroupByte pv h true (L.getD p (0, 0)).1 (L.getD p (0, 0)).2)
    (hb2 : ∀ p, p < L.length →
      plane2.getD (k + p) 0 = packGroupByte pv h false (L.getD p (0, 0)).1 (L.getD p (0, 0)).2)
    (r c : Nat) :
    (L.foldl (xthDecodeStep plane1 plane2 h) (8 * k, px)).2 r c
      = if r < h ∧ (c, r / 8 * 8) ∈ L then
          decodePixelVal (packGroupByte pv h true c (r / 8 * 8))
            (packGroupByte pv h false c (r / 8 * 8)) (r % 8)
        else px r c := by
  revert hband hb1 hb2
  induction L generalizing k px with
  | nil => intro _ _ _; simp
  | cons g L ih =>
    intro hband hb1 hb2
    obtain ⟨g1, g2⟩ := g
    rw [List.foldl_cons]
    have e1 := hb1 0 (by simp)
    have e2 := hb2 0 (by simp)
    simp only [List.getD_cons_zero, Nat.add_zero] at e1 e2
    have hstep : xthDecodeStep plane1 plane2 h (8 * k, px) (g1, g2)
        = (8 * (k + 1), fun r c =>
            if c = g1 ∧ r < h ∧ r ∈ (List.range 8).map (g2 + ·) then
              decodePixelVal (packGroupByte pv h true g1 g2) (packGroupByte pv h false g1 g2)
                (r - g2)
            else px r c) := by
      unfold xthDecodeStep
      simp only [Prod.mk.injEq]
      constructor
      · omega
      · funext r c
        have hk : 8 * k / 8 = k := by omega
        rw [hk, e1, e2]
        exact decode_inner_write h g1 g2 _ (List.range 8) px r c
    rw [hstep]
    have hband' : ∀ g' ∈ L, g'.2 % 8 = 0 :=
      fun g' hg' => hband g' (List.mem_cons_of_mem _ hg')
    have hb1' : ∀ p, p < L.length →
        plane1.getD (k + 1 + p) 0
          = packGroupByte pv h true (L.getD p (0, 0)).1 (L.getD p (0, 0)).2 := by
      intro p hp
      have hx := hb1 (p + 1) (by simp; omega)
      have harith : k + (p + 1) = k + 1 + p := by omega
      rw [harith, List.getD_cons_succ] at hx
      exact hx
    have hb2' : ∀ p, p < L.length →
        plane2.getD (k + 1 + p) 0
          = packGroupByte pv h false (L.getD p (0, 0)).1 (L.getD p (0, 0)).2 := by
      intro p hp
      have hx := hb2 (p + 1) (by simp; omega)
      have harith : k + (p + 1) = k + 1 + p := by omega
      rw [harith, List.getD_cons_succ] at hx
      exact hx
    rw [ih (k + 1) _ hband' hb1' hb2']
    by_cases hrh : r < h
    · by_cases hmem : (c, r / 8 * 8) ∈ L
      · rw [if_pos (show r < h ∧ (c, r / 8 * 8) ∈ L from ⟨hrh, hmem⟩),
          if_pos (show r < h ∧ (c, r / 8 * 8) ∈ (g1, g2) :: L from
            ⟨hrh, List.mem_cons_of_mem _ hmem⟩)]
      · rw [if_neg (show ¬(r < h ∧ (c, r / 8 * 8) ∈ L) from fun hcon => hmem hcon.2)]
        by_cases hg : (c, r / 8 * 8) = (g1, g2)
        · have h1 : g1 = c := by
            have := congrArg Prod.fst hg; simpa using this.symm
          have h2 : g2 = r / 8 * 8 := by
            have := congrArg Prod.snd hg; simpa using this.symm
          rw [if_pos (show r < h ∧ (c, r / 8 * 8) ∈ (g1, g2) :: L from
            ⟨hrh, hg ▸ List.mem_cons_self _ _⟩)]
          have hmm : r ∈ (List.range 8).map (g2 + ·) := by
            rw [h2]
            exact List.mem_map.mpr ⟨r % 8, List.mem_range.mpr (by omega), by omega⟩
          rw [if_pos (show c = g1 ∧ r < h ∧ r ∈ (List.range 8).map (g2 + ·) from
            ⟨h1.symm, hrh, hmm⟩)]
          rw [h1, h2]
          congr 1
          omega
        · rw [if_neg (show ¬(r < h ∧ (c, r / 8 * 8) ∈ (g1, g2) :: L) from by
            rintro ⟨-, hm⟩
            rcases List.mem_cons.mp hm with he | ht
            · exact hg he
            · exact hmem ht)]
          rw [if_neg (show ¬(c = g1 ∧ r < h ∧ r ∈ (List.range 8).map (g2 + ·)) from by
            rintro ⟨hc1, -, hmm⟩
            obtain ⟨i, hi, hir⟩ := List.mem_map.mp hmm
            rw [List.mem_range] at hi
            have hb := hband (g1, g2) (List.mem_cons_self _ _)
            simp only at hb
            apply hg
            have hg2 : r / 8 * 8 = g2 := by omega
            rw [hc1, hg2])]
    · rw [if_neg (show ¬(r < h ∧ (c, r / 8 * 8) ∈ L) from fun hcon => hrh hcon.1),
        if_neg (show ¬(r < h ∧ (c, r / 8 * 8) ∈ (g1, g2) :: L) from fun hcon => hrh hcon.1),
        if_neg (show ¬(c = g1 ∧ r < h ∧ r ∈ (List.range 8).map (g2 + ·)) from
          fun hcon => hrh hcon.2.1)]

theorem except_bind_ok {ε α β : Type} (a : α) (f : α → Except ε β) :
    (Except.ok a >>= f) = f a := rfl

theorem except_bind_ok' {ε α β : Type} (a : α) (f : α → Except ε β) :
    (Except.ok a).bind f = f a := rfl

theorem length_xthGroups (w h : Nat) : (xthGroups w h).length = w * numBands h := by
  unfold xthGroups colsRTL bandStarts
  rw [List.length_flatMap]
  simp [Function.comp_def, List.sum_reverse, List.map_const']

theorem length_xthPlane (pv : Nat → Nat → Nat) (w h : Nat) (hi : Bool) :
    (xthPlane pv w h hi).length = w * numBands h := by
  rw [xthPlane, List.length_map, length_xthGroups]

theorem mem_xthGroups (w h x y : Nat) :
    (x, y) ∈ xthGroups w h ↔ x < w ∧ ∃ b, b < numBands h ∧ y = b * 8 := by
  unfold xthGroups colsRTL bandStarts
  rw [List.mem_flatMap]
  constructor
  · rintro ⟨a, ha, hmem⟩
    rw [List.mem_reverse, List.mem_range] at ha
    rw [List.mem_map] at hmem
    obtain ⟨y', hy', heq⟩ := hmem
    rw [List.mem_map] at hy'
    obtain ⟨b, hb, hby⟩ := hy'
    rw [List.mem_range] at hb
    rw [Prod.mk.injEq] at heq
    obtain ⟨h1, h2⟩ := heq
    exact ⟨h1 ▸ ha, b, hb, by omega⟩
  · rintro ⟨hx, b, hb, hy⟩
    refine ⟨x, ?_, List.mem_map.mpr ⟨y, List.mem_map.mpr ⟨b, List.mem_range.mpr hb, hy.symm⟩, rfl⟩⟩
    rw [List.mem_reverse, List.mem_range]
    exact hx

theorem xthEncode_ok (pv : Nat → Nat → Nat) (w h : Nat) (hw : w < 65536) (hh : h < 65536) :
    xthEncode pv w h = .ok (
      leBytes 4 xthMagic ++ leBytes 2 w ++ leBytes 2 h ++ leBytes 1 0 ++ leBytes 1 0 ++
      leBytes 4 ((xthPlane pv w h true).length + (xthPlane pv w h false).length) ++
      leBytes 8 (((xthPlane pv w h true).sum + (xthPlane pv w h false).sum) % 2 ^ 64) ++
      xthPlane pv w h true ++ xthPlane pv w h false) := by
  have hKb : numBands h ≤ 8192 := by unfold numBands; omega
  have hds : (xthPlane pv w h true).length + (xthPlane pv w h false).length < 256 ^ 4 := by
    rw [length_xthPlane, length_xthPlane]
    have hmul : w * numBands h ≤ 65535 * 8192 := Nat.mul_le_mul (by omega) hKb
    norm_num
    omega
  have hcs : ((xthPlane pv w h true).sum + (xthPlane pv w h false).sum) % 2 ^ 64 < 256 ^ 8 := by
    have he : (256:Nat) ^ 8 = 2 ^ 64 := by norm_num
    rw [he]
    exact Nat.mod_lt _ (by norm_num)
  have hw2 : w < 256 ^ 2 := by norm_num; omega
  have hh2 : h < 256 ^ 2 := by norm_num; omega
  simp only [xthEncode,
    packLE_ok 4 xthMagic (by norm_num [xthMagic]),
    packLE_ok 2 w hw2, packLE_ok 2 h hh2,
    packLE_ok 1 0 (by norm_num),
    packLE_ok 4 ((xthPlane pv w h true).length + (xthPlane pv w h false).length) hds,
    packLE_ok 8 (((xthPlane pv w h true).sum + (xthPlane pv w h false).sum) % 2 ^ 64) hcs,
    except_bind_ok]

theorem pixel_roundtrip_value (pv : Nat → Nat → Nat) (h : Nat) (r c : Nat)
    (hvr : r < h) (hg : pv r c < 4) :
    decodePixelVal (packGroupByte pv h true c (r / 8 * 8))
      (packGroupByte pv h false c (r / 8 * 8)) (r % 8) = 85 * pv r c := by
  have h1 := packGroupByte_extract pv h true c (r / 8 * 8) (r % 8) (by omega) (by omega)
  have h2 := packGroupByte_extract pv h false c (r / 8 * 8) (r % 8) (by omega) (by omega)
  have hrc : r / 8 * 8 + r % 8 = r := by omega
  rw [hrc] at h1 h2
  unfold decodePixelVal
  rw [h1, h2]
  set g := pv r c with hgdef
  clear_value g
  interval_cases g <;> decide

theorem xthDecode_encode (pv : Nat → Nat → Nat) (w h : Nat) (hw : w < 65536) (hh : h < 65536) :
    xthDecode (leBytes 4 xthMagic ++ leBytes 2 w ++ leBytes 2 h ++ leBytes 1 0 ++ leBytes 1 0 ++
        leBytes 4 ((xthPlane pv w h true).length + (xthPlane pv w h false).length) ++
        leBytes 8 (((xthPlane pv w h true).sum + (xthPlane pv w h false).sum) % 2 ^ 64) ++
        xthPlane pv w h true ++ xthPlane pv w h false)
      = .ok ⟨w, h, ((xthGroups w h).foldl
          (xthDecodeStep (xthPlane pv w h true) (xthPlane pv w h false) h)
          (0, fun _ _ => 0)).2⟩ := by
  set p1 := xthPlane pv w h true with hp1
  set p2 := xthPlane pv w h false with hp2
  set ds := p1.length + p2.length with hdsdef
  set cs := (p1.sum + p2.sum) % 2 ^ 64 with hcsdef
  set data := leBytes 4 xthMagic ++ leBytes 2 w ++ leBytes 2 h ++ leBytes 1 0 ++ leBytes 1 0 ++
    leBytes 4 ds ++ leBytes 8 cs ++ p1 ++ p2 with hdata
  have hmagic : unpackLE 4 data 0 = .ok xthMagic :=
    unpackLE_field data []
      (leBytes 2 w ++ (leBytes 2 h ++ (leBytes 1 0 ++ (leBytes 1 0 ++
        (leBytes 4 ds ++ (leBytes 8 cs ++ (p1 ++ p2)))))))
      xthMagic 0 4 (by rw [hdata, List.nil_append]; simp only [List.append_assoc]) (by simp)
      (by norm_num [xthMagic])
  have hwidth : unpackLE 2 data 4 = .ok w :=
    unpackLE_field data (leBytes 4 xthMagic)
      (leBytes 2 h ++ (leBytes 1 0 ++ (leBytes 1 0 ++
        (leBytes 4 ds ++ (leBytes 8 cs ++ (p1 ++ p2))))))
      w 4 2 (by rw [hdata]; simp only [List.append_assoc]) (by simp)
      (by norm_num; omega)
  have hheight : unpackLE 2 data 6 = .ok h :=
    unpackLE_field data (leBytes 4 xthMagic ++ leBytes 2 w)
      (leBytes 1 0 ++ (leBytes 1 0 ++ (leBytes 4 ds ++ (leBytes 8 cs ++ (p1 ++ p2)))))
      h 6 2 (by rw [hdata]; simp only [List.append_assoc]) (by simp)
      (by norm_num; omega)
  have hdrop : data.drop 22 = p1 ++ p2 := by
    rw [hdata]
    have hsplit : leBytes 4 xthMagic ++ leBytes 2 w ++ leBytes 2 h ++ leBytes 1 0 ++
        leBytes 1 0 ++ leBytes 4 ds ++ leBytes 8 cs ++ p1 ++ p2
        = (leBytes 4 xthMagic ++ leBytes 2 w ++ leBytes 2 h ++ leBytes 1 0 ++
            leBytes 1 0 ++ leBytes 4 ds ++ leBytes 8 cs) ++ (p1 ++ p2) := by
      simp only [List.append_assoc]
    rw [hsplit]
    rw [show (22:Nat) = (leBytes 4 xthMagic ++ leBytes 2 w ++ leBytes 2 h ++ leBytes 1 0 ++
        leBytes 1 0 ++ leBytes 4 ds ++ leBytes 8 cs).length from by simp]
    exact List.drop_left _ _
  have hlen12 : (p1 ++ p2).length / 2 = p1.length := by
    rw [List.length_append, hp1, hp2, length_xthPlane, length_xthPlane]
    omega
  have htake : (p1 ++ p2).take ((p1 ++ p2).length / 2) = p1 := by
    rw [hlen12]; exact List.take_left _ _
  have hdrop2 : (p1 ++ p2).drop ((p1 ++ p2).length / 2) = p2 := by
    rw [hlen12]; exact List.drop_left _ _
  simp only [xthDecode, hmagic, hwidth, hheight, except_bind_ok, hdrop, htake, hdrop2]
  rw [if_neg (show ¬(xthMagic ≠ xthMagic) from by simp)]

/-- C4: for every width `w ≥ 1`, height `h ≥ 1` (within the u16 header fields) and every
`w × h` grid of quantized levels in `{0,1,2,3}`, XTH-encoding the grid and decoding the
resulting bytes yields an image of exactly dimensions `w × h` whose pixel at row `y`,
column `x` is `85 * grid y x`; in particular every decoded pixel value lies in
`{0, 85, 170, 255}`. -/
theorem c4_xth_roundtrip (pv : Nat → Nat → Nat) (w h : Nat)
    (hw1 : 1 ≤ w) (hh1 : 1 ≤ h) (hw : w < 65536) (hh : h < 65536)
    (hpv : ∀ r, r < h → ∀ c, c < w → pv r c < 4) :
    ∃ data img, xthEncode pv w h = .ok data ∧ xthDecode data = .ok img ∧
      img.width = w ∧ img.height = h ∧
      (∀ r, r < h → ∀ c, c < w → img.pix r c = 85 * pv r c) ∧
      (∀ r, r < h → ∀ c, c < w →
        img.pix r c = 0 ∨ img.pix r c = 85 ∨ img.pix r c = 170 ∨ img.pix r c = 255) := by
  have hpix : ∀ r, r < h → ∀ c, c < w →
      ((xthGroups w h).foldl
        (xthDecodeStep (xthPlane pv w h true) (xthPlane pv w h false) h)
        (0, fun _ _ => 0)).2 r c = 85 * pv r c := by
    intro r hr c hc
    have hband : ∀ g ∈ xthGroups w h, g.2 % 8 = 0 := by
      intro g hg
      obtain ⟨gx, gy⟩ := g
      rw [mem_xthGroups] at hg
      obtain ⟨-, b, -, rfl⟩ := hg
      simp [Nat.mul_mod_left]
    have hb1 : ∀ p, p < (xthGroups w h).length →
        (xthPlane pv w h true).getD (0 + p) 0
          = packGroupByte pv h true ((xthGroups w h).getD p (0, 0)).1
              ((xthGroups w h).getD p (0, 0)).2 := by
      intro p hp
      rw [Nat.zero_add, xthPlane]
      exact getD_map_lt _ _ p hp 0 (0, 0)
    have hb2 : ∀ p, p < (xthGroups w h).length →
        (xthPlane pv w h false).getD (0 + p) 0
          = packGroupByte pv h false ((xthGroups w h).getD p (0, 0)).1
              ((xthGroups w h).getD p (0, 0)).2 := by
      intro p hp
      rw [Nat.zero_add, xthPlane]
      exact getD_map_lt _ _ p hp 0 (0, 0)
    have hmem : (c, r / 8 * 8) ∈ xthGroups w h := by
      rw [mem_xthGroups]
      refine ⟨hc, r / 8, ?_, rfl⟩
      unfold numBands
      omega
    have h0 : ((0, fun _ _ => 0) : Nat × (Nat → Nat → Nat))
        = ((8 * 0, fun _ _ => 0) : Nat × (Nat → Nat → Nat)) := by norm_num
    rw [h0, xthDecode_fold pv h (xthPlane pv w h true) (xthPlane pv w h false)
      (xthGroups w h) 0 _ hband hb1 hb2 r c]
    rw [if_pos (show r < h ∧ (c, r / 8 * 8) ∈ xthGroups w h from ⟨hr, hmem⟩)]
    exact pixel_roundtrip_value pv h r c hr (hpv r hr c hc)
  refine ⟨_, ⟨w, h, ((xthGroups w h).foldl
      (xthDecodeStep (xthPlane pv w h true) (xthPlane pv w h false) h)
      (0, fun _ _ => 0)).2⟩,
    xthEncode_ok pv w h hw hh, xthDecode_encode pv w h hw hh, rfl, rfl, ?_, ?_⟩
  · intro r hr c hc
    exact hpix r hr c hc
  · intro r hr c hc
    have hpixEq : (⟨w, h, ((xthGroups w h).foldl
        (xthDecodeStep (xthPlane pv w h true) (xthPlane pv w h false) h)
        (0, fun _ _ => 0)).2⟩ : GrayImage).pix r c = 85 * pv r c := hpix r hr c hc
    rw [hpixEq]
    have := hpv r hr c hc
    omega

/-- Witness for C4 at `w = 2`, `h = 3`, grid `(r + c) % 4`. -/
theorem c4_xth_roundtrip_witness :
    (1 ≤ 2 ∧ 1 ≤ 3 ∧ 2 < 65536 ∧ 3 < 65536 ∧
      (∀ r, r < 3 → ∀ c, c < 2 → (r + c) % 4 < 4)) ∧
    (∃ data img, xthEncode (fun r c => (r + c) % 4) 2 3 = .ok data ∧
      xthDecode data = .ok img ∧ img.width = 2 ∧ img.height = 3 ∧
      (∀ r, r < 3 → ∀ c, c < 2 → img.pix r c = 85 * ((r + c) % 4)) ∧
      (∀ r, r < 3 → ∀ c, c < 2 →
        img.pix r c = 0 ∨ img.pix r c = 85 ∨ img.pix r c = 170 ∨ img.pix r c = 255)) :=
  ⟨⟨by decide, by decide, by decide, by decide, by decide⟩,
    c4_xth_roundtrip (fun r c => (r + c) % 4) 2 3 (by decide) (by decide) (by decide)
      (by decide) (by decide)⟩

/-! XTG codec (`xtctool/core/xtg.py`): 1-bit monochrome, row-major bitmap.
As for XTH, the embedding enters `XTGWriter.encode` after quantization, on a
grid of 0/1 pixel values indexed `(row, column)`. -/

/-- Magic constant of the XTG format (bytes "XTG\x00" little-endian). -/
def xtgMagic : Nat := 0x00475458

/-- Bytes per bitmap row: `(width + 7) // 8`. -/
def bytesPerRow (w : Nat) : Nat := (w + 7) / 8

/-- One packed byte of `_encode_bitmap`: 8 horizontal pixels, MSB = leftmost
(`x = byte_idx * 8 + bit_idx`, `if x < width: byte_val |= pixel << (7 - bit_idx)`). -/
def xtgRowByte (pv : Nat → Nat → Nat) (w y byteIdx : Nat) : Nat :=
  (List.range 8).foldl (fun b bitIdx =>
    if byteIdx * 8 + bitIdx < w then b ||| (pv y (byteIdx * 8 + bitIdx) <<< (7 - bitIdx)) else b) 0

/-- Full bitmap of `_encode_bitmap`: rows top to bottom, `bytes_per_row` bytes per row. -/
def xtgBitmap (pv : Nat → Nat → Nat) (w h : Nat) : List Nat :=
  (List.range h).flatMap (fun y =>
    (List.range (bytesPerRow w)).map (fun bi => xtgRowByte pv w y bi))

/-- Model of `XTGWriter.encode` from the quantized grid on: same 22-byte header
shape as XTH with the XTG magic, followed by the single bitmap plane. -/
def xtgEncode (pv : Nat → Nat → Nat) (w h : Nat) : Except String (List Nat) := do
  let bitmap := xtgBitmap pv w h
  let dataSize := bitmap.length
  let checksum := bitmap.sum % 2 ^ 64
  let mB ← packLE 4 xtgMagic
  let wB ← packLE 2 w
  let hB ← packLE 2 h
  let cmB ← packLE 1 0
  let cpB ← packLE 1 0
  let dsB ← packLE 4 dataSize
  let csB ← packLE 8 checksum
  .ok (mB ++ wB ++ hB ++ cmB ++ cpB ++ dsB ++ csB ++ bitmap)

theorem length_xtgBitmap (pv : Nat → Nat → Nat) (w h : Nat) :
    (xtgBitmap pv w h).length = h * bytesPerRow w := by
  unfold xtgBitmap
  rw [List.length_flatMap]
  simp [Function.comp_def, List.map_const']

theorem xtgEncode_ok (pv : Nat → Nat → Nat) (w h : Nat) (hw : w < 65536) (hh : h < 65536) :
    xtgEncode pv w h = .ok (
      leBytes 4 xtgMagic ++ leBytes 2 w ++ leBytes 2 h ++ leBytes 1 0 ++ leBytes 1 0 ++
      leBytes 4 (xtgBitmap pv w h).length ++
      leBytes 8 ((xtgBitmap pv w h).sum % 2 ^ 64) ++ xtgBitmap pv w h) := by
  have hrb : bytesPerRow w ≤ 8192 := by unfold bytesPerRow; omega
  have hds : (xtgBitmap pv w h).length < 256 ^ 4 := by
    rw [length_xtgBitmap]
    have hmul : h * bytesPerRow w ≤ 65535 * 8192 := Nat.mul_le_mul (by omega) hrb
    norm_num
    omega
  have hcs : (xtgBitmap pv w h).sum % 2 ^ 64 < 256 ^ 8 := by
    have he : (256:Nat) ^ 8 = 2 ^ 64 := by norm_num
    rw [he]
    exact Nat.mod_lt _ (by norm_num)
  have hw2 : w < 256 ^ 2 := by norm_num; omega
  have hh2 : h < 256 ^ 2 := by norm_num; omega
  simp only [xtgEncode,
    packLE_ok 4 xtgMagic (by norm_num [xtgMagic]),
    packLE_ok 2 w hw2, packLE_ok 2 h hh2,
    packLE_ok 1 0 (by norm_num),
    packLE_ok 4 (xtgBitmap pv w h).length hds,
    packLE_ok 8 ((xtgBitmap pv w h).sum % 2 ^ 64) hcs,
    except_bind_ok]

/-- C6: for dimensions `w ≥ 1`, `h ≥ 1` (within the u16 header fields), the XTH
payload is exactly `2 * ceil(h/8) * w` bytes (plane A in full, then plane B, each
`ceil(h/8) * w` bytes) and the XTG payload is exactly `ceil(w/8) * h` bytes; each
encoded frame is its 22-byte header followed by that payload, so the total sizes
are `22 + 2*ceil(h/8)*w` and `22 + ceil(w/8)*h` bytes respectively. -/
theorem c6_frame_sizes (pvh pvg : Nat → Nat → Nat) (w h : Nat)
    (hw1 : 1 ≤ w) (hh1 : 1 ≤ h) (hw : w < 65536) (hh : h < 65536) :
    ∃ dh dg, xthEncode pvh w h = .ok dh ∧ xtgEncode pvg w h = .ok dg ∧
      dh.drop 22 = xthPlane pvh w h true ++ xthPlane pvh w h false ∧
      (xthPlane pvh w h true).length = (h + 7) / 8 * w ∧
      (xthPlane pvh w h false).length = (h + 7) / 8 * w ∧
      dh.length = 22 + 2 * ((h + 7) / 8 * w) ∧
      dg.drop 22 = xtgBitmap pvg w h ∧
      (xtgBitmap pvg w h).length = (w + 7) / 8 * h ∧
      dg.length = 22 + (w + 7) / 8 * h := by
  have hlh : ∀ hi : Bool, (xthPlane pvh w h hi).length = (h + 7) / 8 * w := by
    intro hi
    rw [length_xthPlane]
    unfold numBands
    ring
  have hlg : (xtgBitmap pvg w h).length = (w + 7) / 8 * h := by
    rw [length_xtgBitmap]
    unfold bytesPerRow
    ring
  refine ⟨_, _, xthEncode_ok pvh w h hw hh, xtgEncode_ok pvg w h hw hh,
    ?_, hlh true, hlh false, ?_, ?_, hlg, ?_⟩
  · have hsplit : leBytes 4 xthMagic ++ leBytes 2 w ++ leBytes 2 h ++ leBytes 1 0 ++
        leBytes 1 0 ++ leBytes 4 ((xthPlane pvh w h true).length + (xthPlane pvh w h false).length) ++
        leBytes 8 (((xthPlane pvh w h true).sum + (xthPlane pvh w h false).sum) % 2 ^ 64) ++
        xthPlane pvh w h true ++ xthPlane pvh w h false
        = (leBytes 4 xthMagic ++ leBytes 2 w ++ leBytes 2 h ++ leBytes 1 0 ++
            leBytes 1 0 ++ leBytes 4 ((xthPlane pvh w h true).length + (xthPlane pvh w h false).length) ++
            leBytes 8 (((xthPlane pvh w h true).sum + (xthPlane pvh w h false).sum) % 2 ^ 64))
          ++ (xthPlane pvh w h true ++ xthPlane pvh w h false) := by
      simp only [List.append_assoc]
    rw [hsplit]
    rw [show (22:Nat) = (leBytes 4 xthMagic ++ leBytes 2 w ++ leBytes 2 h ++ leBytes 1 0 ++
        leBytes 1 0 ++ leBytes 4 ((xthPlane pvh w h true).length + (xthPlane pvh w h false).length) ++
        leBytes 8 (((xthPlane pvh w h true).sum + (xthPlane pvh w h false).sum) % 2 ^ 64)).length
      from by simp]
    exact List.drop_left _ _
  · simp only [List.length_append, length_leBytes, hlh true, hlh false]
    ring
  · have hsplit : leBytes 4 xtgMagic ++ leBytes 2 w ++ leBytes 2 h ++ leBytes 1 0 ++
        leBytes 1 0 ++ leBytes 4 (xtgBitmap pvg w h).length ++
        leBytes 8 ((xtgBitmap pvg w h).sum % 2 ^ 64) ++ xtgBitmap pvg w h
        = (leBytes 4 xtgMagic ++ leBytes 2 w ++ leBytes 2 h ++ leBytes 1 0 ++
            leBytes 1 0 ++ leBytes 4 (xtgBitmap pvg w h).length ++
            leBytes 8 ((xtgBitmap pvg w h).sum % 2 ^ 64)) ++ xtgBitmap pvg w h := by
      simp only [List.append_assoc]
    rw [hsplit]
    rw [show (22:Nat) = (leBytes 4 xtgMagic ++ leBytes 2 w ++ leBytes 2 h ++ leBytes 1 0 ++
        leBytes 1 0 ++ leBytes 4 (xtgBitmap pvg w h).length ++
        leBytes 8 ((xtgBitmap pvg w h).sum % 2 ^ 64)).length from by simp]
    exact List.drop_left _ _
  · simp only [List.length_append, length_leBytes, hlg]

/-- Witness for C6 at `w = 3`, `h = 10` with all-zero grids. -/
theorem c6_frame_sizes_witness :
    (1 ≤ 3 ∧ 1 ≤ 10 ∧ 3 < 65536 ∧ 10 < 65536) ∧
    (∃ dh dg, xthEncode (fun _ _ => 0) 3 10 = .ok dh ∧ xtgEncode (fun _ _ => 0) 3 10 = .ok dg ∧
      dh.drop 22 = xthPlane (fun _ _ => 0) 3 10 true ++ xthPlane (fun _ _ => 0) 3 10 false ∧
      (xthPlane (fun _ _ => 0) 3 10 true).length = (10 + 7) / 8 * 3 ∧
      (xthPlane (fun _ _ => 0) 3 10 false).length = (10 + 7) / 8 * 3 ∧
      dh.length = 22 + 2 * ((10 + 7) / 8 * 3) ∧
      dg.drop 22 = xtgBitmap (fun _ _ => 0) 3 10 ∧
      (xtgBitmap (fun _ _ => 0) 3 10).length = (3 + 7) / 8 * 10 ∧
      dg.length = 22 + (3 + 7) / 8 * 10) :=
  ⟨⟨by decide, by decide, by decide, by decide⟩,
    c6_frame_sizes (fun _ _ => 0) (fun _ _ => 0) 3 10 (by decide) (by decide)
      (by decide) (by decide)⟩

/-! XTC container codec (`xtctool/core/xtc.py`).

String-valued metadata and chapter-name fields are modelled by their UTF-8
byte sequences (`List Nat`), since the codec only moves truncated, NUL-padded
byte strings; the reader's `split(b'\x00', 1)[0]` keeps the bytes before the
first NUL and is modelled by `takeWhile`. -/

/-- Magic constant of the XTC container (bytes "XTC\x00" little-endian). -/
def xtcMagic : Nat := 0x00435458

/-- Model of `XTCMetadata` (field strings as UTF-8 bytes). -/
structure XTCMetadata where
  title : List Nat
  author : List Nat
  publisher : List Nat
  language : List Nat
  createTime : Nat
  coverPage : Nat
  chapterCount : Nat
deriving DecidableEq

/-- Model of `XTCChapter` (name as UTF-8 bytes; pages 0-based, end inclusive). -/
structure XTCChapter where
  name : List Nat
  startPage : Nat
  endPage : Nat
deriving DecidableEq

/-- Fixed-width NUL-padded field: `bs + b'\x00' * (n - len(bs))` (callers truncate first). -/
def padField (n : Nat) (bs : List Nat) : List Nat := bs ++ List.replicate (n - bs.length) 0

/-- Model of `XTCWriter._write_header` (48 bytes; the caller passes the computed
offsets, the metadata offset is zeroed when there is no metadata). -/
def xtcHeaderBytes (pageCount dir : Nat) (hasMetadata hasChapters : Bool)
    (metadataOffset indexOffset dataOffset : Nat) : Except String (List Nat) := do
  let mB ← packLE 4 xtcMagic
  let vB ← packLE 2 0x0100
  let pcB ← packLE 2 pageCount
  let dirB ← packLE 1 dir
  let hmB ← packLE 1 (if hasMetadata then 1 else 0)
  let htB ← packLE 1 0
  let hcB ← packLE 1 (if hasChapters then 1 else 0)
  let cpB ← packLE 4 0
  let moB ← packLE 8 (if hasMetadata then metadataOffset else 0)
  let ioB ← packLE 8 indexOffset
  let doB ← packLE 8 dataOffset
  let toB ← packLE 8 0
  .ok (mB ++ vB ++ pcB ++ dirB ++ hmB ++ htB ++ hcB ++ cpB ++ moB ++ ioB ++ doB ++ toB)

/-- Model of `XTCWriter._write_metadata` (256 bytes): title[128], author[64],
publisher[32], language[16] each truncated to size−1 and NUL-padded, then
create_time u32, cover_page u16, chapter count u16 (`len(self.chapters)`),
8 reserved bytes. -/
def xtcMetadataBytes (meta : XTCMetadata) (chapterCount : Nat) : Except String (List Nat) := do
  let ctB ← packLE 4 meta.createTime
  let cvB ← packLE 2 meta.coverPage
  let ccB ← packLE 2 chapterCount
  .ok (padField 128 (meta.title.take 127) ++ padField 64 (meta.author.take 63) ++
    padField 32 (meta.publisher.take 31) ++ padField 16 (meta.language.take 15) ++
    ctB ++ cvB ++ ccB ++ List.replicate 8 0)

/-- Model of one 96-byte chapter record of `XTCWriter._write_chapters`:
name[80] truncated to 79 and NUL-padded, start u16, end u16, 12 reserved bytes. -/
def xtcChapterBytes (c : XTCChapter) : Except String (List Nat) := do
  let spB ← packLE 2 c.startPage
  let epB ← packLE 2 c.endPage
  .ok (padField 80 (c.name.take 79) ++ spB ++ epB ++ List.replicate 12 0)

/-- Model of the index-table loop of `XTCWriter.write`: one 16-byte entry per
frame (offset u64, size u32, width u16, height u16 — the packed width/height
bytes are the same for every entry and are passed in), with
`current_data_offset` advanced by each frame's size. -/
def xtcIndexBytes (w16 h16 : List Nat) : List (List Nat) → Nat → Except String (List Nat)
  | [], _ => .ok []
  | f :: rest, off => do
    let oB ← packLE 8 off
    let sB ← packLE 4 f.length
    let restB ← xtcIndexBytes w16 h16 rest (off + f.length)
    .ok (oB ++ sB ++ w16 ++ h16 ++ restB)

/-- Model of `XTCWriter.write` (together with the `XTCWriter.__init__` state):
raise on an empty frame list, compute the section offsets, then emit header,
optional metadata block, optional chapter blocks, index table and the raw
frame bytes in order. -/
def xtcWrite (width height dir : Nat) (metadata : XTCMetadata) (chapters : List XTCChapter)
    (frames : List (List Nat)) : Except String (List Nat) := do
  if frames.isEmpty then
    Except.error "No frames provided"
  else do
    let pageCount := frames.length
    let hasChapters := !chapters.isEmpty
    let hasMetadata := !metadata.title.isEmpty || !metadata.author.isEmpty || hasChapters
    let metadataOffset := if hasMetadata then 48 else 0
    let co1 := 48 + (if hasMetadata then 256 else 0)
    let indexOffset := co1 + (if hasChapters then 96 * chapters.length else 0)
    let dataOffset := indexOffset + 16 * pageCount
    let wB ← packLE 2 width
    let hB ← packLE 2 height
    let headerB ← xtcHeaderBytes pageCount dir hasMetadata hasChapters
      metadataOffset indexOffset dataOffset
    let metaB ← if hasMetadata then xtcMetadataBytes metadata chapters.length else .ok []
    let chapB ← if hasChapters then do
        let cbs ← chapters.mapM xtcChapterBytes
        Except.ok cbs.flatten
      else .ok []
    let idxB ← xtcIndexBytes wB hB frames dataOffset
    .ok (headerB ++ metaB ++ chapB ++ idxB ++ frames.flatten)

/-- Decoded container contents built by `XTCReader.decode` (header fields plus
metadata, chapters, first-page dimensions and the extracted frame slices). -/
structure XTCDecoded where
  version : Nat
  pageCount : Nat
  readingDirection : Nat
  hasMetadata : Nat
  hasChapters : Nat
  metadata : Option XTCMetadata
  chapters : List XTCChapter
  width : Nat
  height : Nat
  frames : List (List Nat)
deriving DecidableEq

/-- Model of `XTCReader._read_metadata`: fixed-width fields cut at the first NUL. -/
def xtcReadMetadata (data : List Nat) (offset : Nat) : Except String XTCMetadata := do
  let title := ((data.drop offset).take 128).takeWhile (· ≠ 0)
  let author := ((data.drop (offset + 128)).take 64).takeWhile (· ≠ 0)
  let publisher := ((data.drop (offset + 192)).take 32).takeWhile (· ≠ 0)
  let language := ((data.drop (offset + 224)).take 16).takeWhile (· ≠ 0)
  let createTime ← unpackLE 4 data (offset + 240)
  let coverPage ← unpackLE 2 data (offset + 244)
  let chapterCount ← unpackLE 2 data (offset + 246)
  .ok ⟨title, author, publisher, language, createTime, coverPage, chapterCount⟩

/-- Model of `XTCReader._read_chapters`: `count` fixed 96-byte records starting
at `offset` (name cut at the first NUL, then start/end u16). -/
def xtcReadChapters (data : List Nat) (offset count : Nat) : Except String (List XTCChapter) :=
  (List.range count).mapM (fun i => do
    let co := offset + i * 96
    let name := ((data.drop co).take 80).takeWhile (· ≠ 0)
    let sp ← unpackLE 2 data (co + 80)
    let ep ← unpackLE 2 data (co + 82)
    Except.ok (⟨name, sp, ep⟩ : XTCChapter))

/-- Metadata step of `XTCReader.decode`: `if has_metadata and metadata_offset > 0:
self._read_metadata(data, metadata_offset)` (flags are Python-truthy ints). -/
def xtcMaybeMetadata (data : List Nat) (hasMetadata metadataOffset : Nat) :
    Except String (Option XTCMetadata) :=
  if hasMetadata ≠ 0 ∧ metadataOffset > 0 then do
    let m ← xtcReadMetadata data metadataOffset
    Except.ok (some m)
  else .ok none

/-- Chapter step of `XTCReader.decode`: when the `has_chapters` flag is set, the
chapter table starts after the metadata block (or right after the header), and —
as in the source — the FLAG byte itself is passed as the record `count`
(`self._read_chapters(data, chapter_offset, has_chapters)`). -/
def xtcMaybeChapters (data : List Nat) (hasMetadata hasChapters metadataOffset : Nat) :
    Except String (List XTCChapter) :=
  if hasChapters ≠ 0 then
    xtcReadChapters data (if hasMetadata ≠ 0 then metadataOffset + 256 else 48) hasChapters
  else .ok []

/-- Frame-extraction loop of `XTCReader.decode`: for each page read its 16-byte
index entry (`entry_offset = index_offset + i * 16` is inlined) and slice
`data[page_offset : page_offset + page_size]`. -/
def xtcFramesRead (data : List Nat) (indexOffset pageCount : Nat) :
    Except String (List (List Nat)) :=
  (List.range pageCount).mapM (fun i =>
    (unpackLE 8 data (indexOffset + i * 16)).bind (fun pageOffset =>
      (unpackLE 4 data (indexOffset + i * 16 + 8)).bind (fun pageSize =>
        Except.ok ((data.drop pageOffset).take pageSize))))

/-- Width/height recovery of `XTCReader.decode`: stored from the FIRST index
entry inside the page loop (left at the reader's initial 0 when there are no
pages). -/
def xtcFirstDims (data : List Nat) (indexOffset pageCount : Nat) :
    Except String (Nat × Nat) :=
  if pageCount ≠ 0 then do
    let wq ← unpackLE 2 data (indexOffset + 12)
    let hq ← unpackLE 2 data (indexOffset + 14)
    Except.ok (wq, hq)
  else .ok ((0, 0) : Nat × Nat)

/-- Model of `XTCReader.decode`: parse the header, then metadata, chapters,
frames and first-page dimensions as in the source (the single Python page loop
is split into `xtcFramesRead` and `xtcFirstDims`, which read the same entries). -/
def xtcDecode (data : List Nat) : Except String XTCDecoded := do
  let magic ← unpackLE 4 data 0
  if magic ≠ xtcMagic then
    Except.error "Invalid XTC magic"
  else do
    let version ← unpackLE 2 data 4
    let pageCount ← unpackLE 2 data 6
    let readingDirection ← unpackLE 1 data 8
    let hasMetadata ← unpackLE 1 data 9
    let hasThumbnails ← unpackLE 1 data 10
    let hasChapters ← unpackLE 1 data 11
    let currentPage ← unpackLE 4 data 12
    let metadataOffset ← unpackLE 8 data 16
    let indexOffset ← unpackLE 8 data 24
    let dataOffset ← unpackLE 8 data 32
    let thumbOffset ← unpackLE 8 data 40
    let metadata ← xtcMaybeMetadata data hasMetadata metadataOffset
    let chapters ← xtcMaybeChapters data hasMetadata hasChapters metadataOffset
    let frames ← xtcFramesRead data indexOffset pageCount
    let wh ← xtcFirstDims data indexOffset pageCount
    .ok ⟨version, pageCount, readingDirection, hasMetadata, hasChapters, metadata,
      chapters, wh.1, wh.2, frames⟩

/-- Model of `XTCWriter.write`'s effect on the file system: `open(output_path, 'wb')`
creates/overwrites the file only after the empty-frame-list check has passed,
so an error leaves the file map untouched. -/
def xtcWriteFile (width height dir : Nat) (metadata : XTCMetadata)
    (chapters : List XTCChapter) (path : String) (frames : List (List Nat))
    (fs : String → Option (List Nat)) :
    Except String (String → Option (List Nat)) := do
  let bytes ← xtcWrite width height dir metadata chapters frames
  .ok (fun p => if p = path then some bytes else fs p)

theorem mapM_ok {α β : Type} (l : List α) (F : α → Except String β) (G : α → β)
    (h : ∀ a ∈ l, F a = .ok (G a)) : l.mapM F = .ok (l.map G) := by
  induction l with
  | nil => rfl
  | cons a l ih =>
    rw [List.mapM_cons, h a (List.mem_cons_self _ _),
      ih (fun b hb => h b (List.mem_cons_of_mem _ hb))]
    rfl

theorem map_getD_range {α : Type} (l : List α) (d : α) :
    (List.range l.length).map (fun i => l.getD i d) = l := by
  apply List.ext_get
  · simp
  · intro i h1 h2
    simp only [List.get_eq_getElem, List.getElem_map, List.getElem_range,
      List.getD_eq_getElem?_getD]
    rw [List.getElem?_eq_getElem h2]
    rfl

theorem pow256_4 : (256:Nat) ^ 4 = 2 ^ 32 := by norm_num

theorem pow256_8 : (256:Nat) ^ 8 = 2 ^ 64 := by norm_num

theorem xtcIndexBytes_isOk (w16 h16 : List Nat) (hw16 : w16.length = 2) (hh16 : h16.length = 2)
    (frames : List (List Nat)) (off : Nat)
    (hsz : ∀ f ∈ frames, f.length < 2 ^ 32)
    (hoff : off + (frames.map List.length).sum < 2 ^ 64) :
    ∃ idx, xtcIndexBytes w16 h16 frames off = .ok idx ∧ idx.length = 16 * frames.length := by
  induction frames generalizing off with
  | nil => exact ⟨[], rfl, rfl⟩
  | cons f rest ih =>
    simp only [List.map_cons, List.sum_cons] at hoff
    obtain ⟨ridx, hok, hlen⟩ := ih (off + f.length)
      (fun g hg => hsz g (List.mem_cons_of_mem _ hg)) (by omega)
    refine ⟨leBytes 8 off ++ leBytes 4 f.length ++ w16 ++ h16 ++ ridx, ?_, ?_⟩
    · simp only [xtcIndexBytes,
        packLE_ok 8 off (by rw [pow256_8]; omega),
        packLE_ok 4 f.length (by rw [pow256_4]; exact hsz f (List.mem_cons_self _ _)),
        hok, except_bind_ok]
    · simp only [List.length_append, length_leBytes, hlen, hw16, hh16, List.length_cons]
      omega

theorem xtcIndex_reads (width height : Nat) (hwb : width < 65536) (hhb : height < 65536)
    (frames : List (List Nat)) (off : Nat) (idx : List Nat)
    (hsz : ∀ f ∈ frames, f.length < 2 ^ 32)
    (hoff : off + (frames.map List.length).sum < 2 ^ 64)
    (hok : xtcIndexBytes (leBytes 2 width) (leBytes 2 height) frames off = .ok idx) :
    ∀ (pre post : List Nat) (i : Nat), i < frames.length →
      unpackLE 8 (pre ++ idx ++ post) (pre.length + 16 * i)
        = .ok (off + ((frames.take i).map List.length).sum) ∧
      unpackLE 4 (pre ++ idx ++ post) (pre.length + 16 * i + 8)
        = .ok (frames.getD i []).length ∧
      unpackLE 2 (pre ++ idx ++ post) (pre.length + 16 * i + 12) = .ok width ∧
      unpackLE 2 (pre ++ idx ++ post) (pre.length + 16 * i + 14) = .ok height := by
  induction frames generalizing off idx with
  | nil =>
    intro pre post i hi
    exact absurd hi (by simp)
  | cons f rest ih =>
    simp only [List.map_cons, List.sum_cons] at hoff
    obtain ⟨ridx, hrok, -⟩ := xtcIndexBytes_isOk (leBytes 2 width) (leBytes 2 height)
      (by simp) (by simp) rest (off + f.length)
      (fun g hg => hsz g (List.mem_cons_of_mem _ hg)) (by omega)
    have hidx : idx = leBytes 8 off ++ leBytes 4 f.length ++ leBytes 2 width ++
        leBytes 2 height ++ ridx := by
      simp only [xtcIndexBytes,
        packLE_ok 8 off (by rw [pow256_8]; omega),
        packLE_ok 4 f.length (by rw [pow256_4]; exact hsz f (List.mem_cons_self _ _)),
        hrok, except_bind_ok] at hok
      exact (Except.ok.inj hok).symm
    subst hidx
    intro pre post i hi
    cases i with
    | zero =>
      refine ⟨?_, ?_, ?_, ?_⟩
      · simp only [List.take_zero, List.map_nil, List.sum_nil, Nat.add_zero, Nat.mul_zero]
        exact unpackLE_field _ pre
          (leBytes 4 f.length ++ (leBytes 2 width ++ (leBytes 2 height ++ (ridx ++ post))))
          off _ 8 (by simp only [List.append_assoc]) rfl (by rw [pow256_8]; omega)
      · simp only [List.getD_cons_zero, Nat.mul_zero, Nat.add_zero]
        exact unpackLE_field _ (pre ++ leBytes 8 off)
          (leBytes 2 width ++ (leBytes 2 height ++ (ridx ++ post)))
          f.length _ 4 (by simp only [List.append_assoc]) (by simp)
          (by rw [pow256_4]; exact hsz f (List.mem_cons_self _ _))
      · simp only [Nat.mul_zero, Nat.add_zero]
        exact unpackLE_field _ (pre ++ leBytes 8 off ++ leBytes 4 f.length)
          (leBytes 2 height ++ (ridx ++ post))
          width _ 2 (by simp only [List.append_assoc]) (by simp)
          (by norm_num; omega)
      · simp only [Nat.mul_zero, Nat.add_zero]
        exact unpackLE_field _ (pre ++ leBytes 8 off ++ leBytes 4 f.length ++ leBytes 2 width)
          (ridx ++ post)
          height _ 2 (by simp only [List.append_assoc]) (by simp)
          (by norm_num; omega)
    | succ i =>
      have hres := ih (off + f.length) ridx
        (fun g hg => hsz g (List.mem_cons_of_mem _ hg)) (by omega) hrok
        (pre ++ (leBytes 8 off ++ leBytes 4 f.length ++ leBytes 2 width ++ leBytes 2 height))
        post i (by simpa using Nat.lt_of_succ_lt_succ hi)
      obtain ⟨t1, t2, t3, t4⟩ := hres
      have hdataeq : (pre ++ (leBytes 8 off ++ leBytes 4 f.length ++ leBytes 2 width ++
          leBytes 2 height)) ++ ridx ++ post
          = pre ++ (leBytes 8 off ++ leBytes 4 f.length ++ leBytes 2 width ++
            leBytes 2 height ++ ridx) ++ post := by
        simp only [List.append_assoc]
      have hlen' : (pre ++ (leBytes 8 off ++ leBytes 4 f.length ++ leBytes 2 width ++
          leBytes 2 height)).length = pre.length + 16 := by
        simp
      rw [hdataeq, hlen'] at t1 t2 t3 t4
      have e1 : pre.length + 16 * (i + 1) = pre.length + 16 + 16 * i := by omega
      refine ⟨?_, ?_, ?_, ?_⟩
      · have hsum : off + ((List.take (i + 1) (f :: rest)).map List.length).sum
            = off + f.length + ((List.take i rest).map List.length).sum := by
          simp only [List.take_succ_cons, List.map_cons, List.sum_cons]
          omega
        rw [hsum, e1]
        exact t1
      · rw [List.getD_cons_succ, e1]
        exact t2
      · rw [e1]
        exact t3
      · rw [e1]
        exact t4

theorem flatten_extract (frames : List (List Nat)) :
    ∀ (pre : List Nat) (i : Nat), i < frames.length →
      ((pre ++ frames.flatten).drop
        (pre.length + ((frames.take i).map List.length).sum)).take (frames.getD i []).length
        = frames.getD i [] := by
  induction frames with
  | nil =>
    intro pre i hi
    exact absurd hi (by simp)
  | cons f rest ih =>
    intro pre i hi
    cases i with
    | zero =>
      simp only [List.take_zero, List.map_nil, List.sum_nil, Nat.add_zero,
        List.getD_cons_zero, List.flatten_cons]
      rw [List.drop_left]
      exact List.take_left _ _
    | succ i =>
      have hi' : i < rest.length := by simpa using Nat.lt_of_succ_lt_succ hi
      have t := ih (pre ++ f) i hi'
      rw [show (pre ++ f) ++ rest.flatten = pre ++ (f :: rest).flatten from by
        simp [List.flatten_cons, List.append_assoc]] at t
      rw [List.getD_cons_succ]
      rw [show pre.length + ((List.take (i + 1) (f :: rest)).map List.length).sum
          = (pre ++ f).length + ((List.take i rest).map List.length).sum from by
        simp only [List.take_succ_cons, List.map_cons, List.sum_cons, List.length_append]
        omega]
      exact t

/-- Byte shape of the 48-byte header emitted by `_write_header`, with the flag
bytes and the stored metadata offset as plain numbers. -/
def xtcHeaderChain (pageCount dir hm hc mo io dOff : Nat) : List Nat :=
  leBytes 4 xtcMagic ++ leBytes 2 0x0100 ++ leBytes 2 pageCount ++ leBytes 1 dir ++
  leBytes 1 hm ++ leBytes 1 0 ++ leBytes 1 hc ++ leBytes 4 0 ++ leBytes 8 mo ++
  leBytes 8 io ++ leBytes 8 dOff ++ leBytes 8 0

@[simp] theorem length_xtcHeaderChain (pageCount dir hm hc mo io dOff : Nat) :
    (xtcHeaderChain pageCount dir hm hc mo io dOff).length = 48 := by
  simp [xtcHeaderChain]

theorem xtcHeaderBytes_ok (pageCount dir : Nat) (hm hc : Bool) (mo io dOff : Nat)
    (hpc : pageCount < 65536) (hdir : dir < 256)
    (hmo : mo < 2 ^ 64) (hio : io < 2 ^ 64) (hdo : dOff < 2 ^ 64) :
    xtcHeaderBytes pageCount dir hm hc mo io dOff = .ok (xtcHeaderChain pageCount dir
      (if hm then 1 else 0) (if hc then 1 else 0) (if hm then mo else 0) io dOff) := by
  unfold xtcHeaderChain
  simp only [xtcHeaderBytes,
    packLE_ok 4 xtcMagic (by norm_num [xtcMagic]),
    packLE_ok 2 0x0100 (by norm_num),
    packLE_ok 2 pageCount (by norm_num; omega),
    packLE_ok 1 dir (by norm_num; omega),
    packLE_ok 1 (if hm then 1 else 0) (by split <;> norm_num),
    packLE_ok 1 0 (by norm_num),
    packLE_ok 1 (if hc then 1 else 0) (by split <;> norm_num),
    packLE_ok 4 0 (by norm_num),
    packLE_ok 8 (if hm then mo else 0) (by rw [pow256_8]; split <;> omega),
    packLE_ok 8 io (by rw [pow256_8]; omega),
    packLE_ok 8 dOff (by rw [pow256_8]; omega),
    packLE_ok 8 0 (by norm_num),
    except_bind_ok]

theorem xtcWrite_no_meta (w h dir : Nat) (meta : XTCMetadata) (frames : List (List Nat))
    (hne : frames ≠ []) (hN : frames.length < 65536) (hw : w < 65536) (hh : h < 65536)
    (hdir : dir < 256) (ht : meta.title = []) (ha : meta.author = [])
    (hsz : ∀ f ∈ frames, f.length < 2 ^ 32)
    (htot : 48 + 16 * frames.length + (frames.map List.length).sum < 2 ^ 64) :
    ∃ idx, xtcIndexBytes (leBytes 2 w) (leBytes 2 h) frames (48 + 16 * frames.length) = .ok idx ∧
      idx.length = 16 * frames.length ∧
      xtcWrite w h dir meta [] frames = .ok (
        xtcHeaderChain frames.length dir 0 0 0 48 (48 + 16 * frames.length)
        ++ idx ++ frames.flatten) := by
  obtain ⟨idx, hidx, hlen⟩ := xtcIndexBytes_isOk (leBytes 2 w) (leBytes 2 h)
    (by simp) (by simp) frames (48 + 16 * frames.length) hsz (by omega)
  refine ⟨idx, hidx, hlen, ?_⟩
  have hemp : frames.isEmpty = false := by
    cases frames with
    | nil => exact absurd rfl hne
    | cons a l => rfl
  have hhdr := xtcHeaderBytes_ok frames.length dir false false 0 48 (48 + 16 * frames.length)
    hN hdir (by norm_num) (by norm_num) (by omega)
  simp only [if_neg, if_pos, Bool.false_eq_true] at hhdr
  simp [xtcWrite, hemp, ht, ha, hhdr, hidx,
    packLE_ok 2 w (by norm_num; omega), packLE_ok 2 h (by norm_num; omega),
    except_bind_ok]

theorem xtcHeaderChain_reads (N dir hm hc mo io dOff : Nat) (rest : List Nat)
    (hN : N < 65536) (hdir : dir < 256) (hhm : hm < 256) (hhc : hc < 256)
    (hmo : mo < 2 ^ 64) (hio : io < 2 ^ 64) (hdo : dOff < 2 ^ 64) :
    unpackLE 4 (xtcHeaderChain N dir hm hc mo io dOff ++ rest) 0 = .ok xtcMagic ∧
    unpackLE 2 (xtcHeaderChain N dir hm hc mo io dOff ++ rest) 4 = .ok 0x0100 ∧
    unpackLE 2 (xtcHeaderChain N dir hm hc mo io dOff ++ rest) 6 = .ok N ∧
    unpackLE 1 (xtcHeaderChain N dir hm hc mo io dOff ++ rest) 8 = .ok dir ∧
    unpackLE 1 (xtcHeaderChain N dir hm hc mo io dOff ++ rest) 9 = .ok hm ∧
    unpackLE 1 (xtcHeaderChain N dir hm hc mo io dOff ++ rest) 10 = .ok 0 ∧
    unpackLE 1 (xtcHeaderChain N dir hm hc mo io dOff ++ rest) 11 = .ok hc ∧
    unpackLE 4 (xtcHeaderChain N dir hm hc mo io dOff ++ rest) 12 = .ok 0 ∧
    unpackLE 8 (xtcHeaderChain N dir hm hc mo io dOff ++ rest) 16 = .ok mo ∧
    unpackLE 8 (xtcHeaderChain N dir hm hc mo io dOff ++ rest) 24 = .ok io ∧
    unpackLE 8 (xtcHeaderChain N dir hm hc mo io dOff ++ rest) 32 = .ok dOff ∧
    unpackLE 8 (xtcHeaderChain N dir hm hc mo io dOff ++ rest) 40 = .ok 0 := by
  refine ⟨?_, ?_, ?_, ?_, ?_, ?_, ?_, ?_, ?_, ?_, ?_, ?_⟩
  · exact unpackLE_field _ []
      (leBytes 2 0x0100 ++ (leBytes 2 N ++ (leBytes 1 dir ++ (leBytes 1 hm ++ (leBytes 1 0 ++
        (leBytes 1 hc ++ (leBytes 4 0 ++ (leBytes 8 mo ++ (leBytes 8 io ++ (leBytes 8 dOff ++
        (leBytes 8 0 ++ rest)))))))))))
      xtcMagic 0 4
      (by rw [List.nil_append]; unfold xtcHeaderChain; simp only [List.append_assoc])
      (by simp) (by norm_num [xtcMagic])
  · exact unpackLE_field _ (leBytes 4 xtcMagic)
      (leBytes 2 N ++ (leBytes 1 dir ++ (leBytes 1 hm ++ (leBytes 1 0 ++
        (leBytes 1 hc ++ (leBytes 4 0 ++ (leBytes 8 mo ++ (leBytes 8 io ++ (leBytes 8 dOff ++
        (leBytes 8 0 ++ rest))))))))))
      0x0100 4 2 (by unfold xtcHeaderChain; simp only [List.append_assoc]) (by simp)
      (by norm_num)
  · exact unpackLE_field _ (leBytes 4 xtcMagic ++ leBytes 2 0x0100)
      (leBytes 1 dir ++ (leBytes 1 hm ++ (leBytes 1 0 ++
        (leBytes 1 hc ++ (leBytes 4 0 ++ (leBytes 8 mo ++ (leBytes 8 io ++ (leBytes 8 dOff ++
        (leBytes 8 0 ++ rest)))))))))
      N 6 2 (by unfold xtcHeaderChain; simp only [List.append_assoc]) (by simp)
      (by norm_num; omega)
  · exact unpackLE_field _ (leBytes 4 xtcMagic ++ leBytes 2 0x0100 ++ leBytes 2 N)
      (leBytes 1 hm ++ (leBytes 1 0 ++
        (leBytes 1 hc ++ (leBytes 4 0 ++ (leBytes 8 mo ++ (leBytes 8 io ++ (leBytes 8 dOff ++
        (leBytes 8 0 ++ rest))))))))
      dir 8 1 (by unfold xtcHeaderChain; simp only [List.append_assoc]) (by simp)
      (by norm_num; omega)
  · exact unpackLE_field _
      (leBytes 4 xtcMagic ++ leBytes 2 0x0100 ++ leBytes 2 N ++ leBytes 1 dir)
      (leBytes 1 0 ++
        (leBytes 1 hc ++ (leBytes 4 0 ++ (leBytes 8 mo ++ (leBytes 8 io ++ (leBytes 8 dOff ++
        (leBytes 8 0 ++ rest)))))))
      hm 9 1 (by unfold xtcHeaderChain; simp only [List.append_assoc]) (by simp)
      (by norm_num; omega)
  · exact unpackLE_field _
      (leBytes 4 xtcMagic ++ leBytes 2 0x0100 ++ leBytes 2 N ++ leBytes 1 dir ++ leBytes 1 hm)
      (leBytes 1 hc ++ (leBytes 4 0 ++ (leBytes 8 mo ++ (leBytes 8 io ++ (leBytes 8 dOff ++
        (leBytes 8 0 ++ rest))))))
      0 10 1 (by unfold xtcHeaderChain; simp only [List.append_assoc]) (by simp)
      (by norm_num)
  · exact unpackLE_field _
      (leBytes 4 xtcMagic ++ leBytes 2 0x0100 ++ leBytes 2 N ++ leBytes 1 dir ++ leBytes 1 hm ++
        leBytes 1 0)
      (leBytes 4 0 ++ (leBytes 8 mo ++ (leBytes 8 io ++ (leBytes 8 dOff ++
        (leBytes 8 0 ++ rest)))))
      hc 11 1 (by unfold xtcHeaderChain; simp only [List.append_assoc]) (by simp)
      (by norm_num; omega)
  · exact unpackLE_field _
      (leBytes 4 xtcMagic ++ leBytes 2 0x0100 ++ leBytes 2 N ++ leBytes 1 dir ++ leBytes 1 hm ++
        leBytes 1 0 ++ leBytes 1 hc)
      (leBytes 8 mo ++ (leBytes 8 io ++ (leBytes 8 dOff ++ (leBytes 8 0 ++ rest))))
      0 12 4 (by unfold xtcHeaderChain; simp only [List.append_assoc]) (by simp)
      (by norm_num)
  · exact unpackLE_field _
      (leBytes 4 xtcMagic ++ leBytes 2 0x0100 ++ leBytes 2 N ++ leBytes 1 dir ++ leBytes 1 hm ++
        leBytes 1 0 ++ leBytes 1 hc ++ leBytes 4 0)
      (leBytes 8 io ++ (leBytes 8 dOff ++ (leBytes 8 0 ++ rest)))
      mo 16 8 (by unfold xtcHeaderChain; simp only [List.append_assoc]) (by simp)
      (by rw [pow256_8]; omega)
  · exact unpackLE_field _
      (leBytes 4 xtcMagic ++ leBytes 2 0x0100 ++ leBytes 2 N ++ leBytes 1 dir ++ leBytes 1 hm ++
        leBytes 1 0 ++ leBytes 1 hc ++ leBytes 4 0 ++ leBytes 8 mo)
      (leBytes 8 dOff ++ (leBytes 8 0 ++ rest))
      io 24 8 (by unfold xtcHeaderChain; simp only [List.append_assoc]) (by simp)
      (by rw [pow256_8]; omega)
  · exact unpackLE_field _
      (leBytes 4 xtcMagic ++ leBytes 2 0x0100 ++ leBytes 2 N ++ leBytes 1 dir ++ leBytes 1 hm ++
        leBytes 1 0 ++ leBytes 1 hc ++ leBytes 4 0 ++ leBytes 8 mo ++ leBytes 8 io)
      (leBytes 8 0 ++ rest)
      dOff 32 8 (by unfold xtcHeaderChain; simp only [List.append_assoc]) (by simp)
      (by rw [pow256_8]; omega)
  · exact unpackLE_field _
      (leBytes 4 xtcMagic ++ leBytes 2 0x0100 ++ leBytes 2 N ++ leBytes 1 dir ++ leBytes 1 hm ++
        leBytes 1 0 ++ leBytes 1 hc ++ leBytes 4 0 ++ leBytes 8 mo ++ leBytes 8 io ++
        leBytes 8 dOff)
      rest
      0 40 8 (by unfold xtcHeaderChain; simp only [List.append_assoc]) (by simp)
      (by norm_num)

/-- C5: for every list of `N ≥ 1` pre-encoded frame byte blobs (within the
container's u16/u32/u64 header fields), writing them to an XTC container with no
title, no author and no chapters, and then decoding the written bytes, returns
exactly `N` frame blobs that are byte-identical to the inputs, in the original
order. -/
theorem c5_xtc_frames_roundtrip (w h dir : Nat) (meta : XTCMetadata)
    (frames : List (List Nat))
    (hne : 1 ≤ frames.length) (hN : frames.length < 65536)
    (hw : w < 65536) (hh : h < 65536) (hdir : dir < 256)
    (ht : meta.title = []) (ha : meta.author = [])
    (hsz : ∀ f ∈ frames, f.length < 2 ^ 32)
    (htot : 48 + 16 * frames.length + (frames.map List.length).sum < 2 ^ 64) :
    ∃ data dec, xtcWrite w h dir meta [] frames = .ok data ∧ xtcDecode data = .ok dec ∧
      dec.frames = frames ∧ dec.pageCount = frames.length ∧
      dec.chapters = [] ∧ dec.metadata = none := by
  have hne' : frames ≠ [] := by
    intro h0
    rw [h0] at hne
    simp at hne
  obtain ⟨idx, hidx, hlenIdx, hwrite⟩ :=
    xtcWrite_no_meta w h dir meta frames hne' hN hw hh hdir ht ha hsz htot
  set hdrC := xtcHeaderChain frames.length dir 0 0 0 48 (48 + 16 * frames.length) with hhdrC
  have hdrLen : hdrC.length = 48 := by rw [hhdrC]; simp
  obtain ⟨q0, q1, q2, q3, q4, q5, q6, q7, q8, q9, q10, q11⟩ :=
    xtcHeaderChain_reads frames.length dir 0 0 0 48 (48 + 16 * frames.length)
      (idx ++ frames.flatten) hN hdir (by norm_num) (by norm_num) (by norm_num)
      (by norm_num) (by omega)
  rw [← hhdrC, ← List.append_assoc] at q0 q1 q2 q3 q4 q5 q6 q7 q8 q9 q10 q11
  have hreads := xtcIndex_reads w h hw hh frames (48 + 16 * frames.length) idx hsz
    (by omega) hidx
  have hF : ∀ i ∈ List.range frames.length,
      (unpackLE 8 (hdrC ++ idx ++ frames.flatten) (48 + i * 16)).bind (fun pageOffset =>
        (unpackLE 4 (hdrC ++ idx ++ frames.flatten) (48 + i * 16 + 8)).bind (fun pageSize =>
          Except.ok (((hdrC ++ idx ++ frames.flatten).drop pageOffset).take pageSize)))
        = Except.ok (frames.getD i []) := by
    intro i hi
    rw [List.mem_range] at hi
    obtain ⟨r1, r2, -, -⟩ := hreads hdrC frames.flatten i hi
    have e1 : (48 : Nat) + i * 16 = hdrC.length + 16 * i := by rw [hdrLen]; ring
    rw [e1, r1, except_bind_ok', r2, except_bind_ok']
    have hx := flatten_extract frames (hdrC ++ idx) i hi
    rw [show (hdrC ++ idx).length = 48 + 16 * frames.length from by
      simp [hdrLen, hlenIdx]] at hx
    rw [show ((hdrC ++ idx) ++ frames.flatten) = hdrC ++ idx ++ frames.flatten from rfl] at hx
    rw [hx]
  have hframes : xtcFramesRead (hdrC ++ idx ++ frames.flatten) 48 frames.length
      = .ok frames := by
    unfold xtcFramesRead
    rw [mapM_ok (List.range frames.length) _ (fun i => frames.getD i []) hF, map_getD_range]
  have hdims : xtcFirstDims (hdrC ++ idx ++ frames.flatten) 48 frames.length
      = .ok (w, h) := by
    unfold xtcFirstDims
    rw [if_pos (show frames.length ≠ 0 from by omega)]
    obtain ⟨-, -, r3, r4⟩ := hreads hdrC frames.flatten 0 (by omega)
    rw [show (48 : Nat) + 12 = hdrC.length + 16 * 0 + 12 from by rw [hdrLen],
      r3, except_bind_ok,
      show (48 : Nat) + 14 = hdrC.length + 16 * 0 + 14 from by rw [hdrLen],
      r4, except_bind_ok]
  have hdec : xtcDecode (hdrC ++ idx ++ frames.flatten)
      = .ok ⟨0x0100, frames.length, dir, 0, 0, none, [], w, h, frames⟩ := by
    simp only [xtcDecode, q0, q1, q2, q3, q4, q5, q6, q7, q8, q9, q10, q11, except_bind_ok]
    rw [if_neg (show ¬(xtcMagic ≠ xtcMagic) from by simp)]
    rw [show xtcMaybeMetadata (hdrC ++ idx ++ frames.flatten) 0 0 = .ok none from rfl,
      except_bind_ok,
      show xtcMaybeChapters (hdrC ++ idx ++ frames.flatten) 0 0 0 = .ok [] from rfl,
      except_bind_ok,
      hframes, except_bind_ok, hdims, except_bind_ok]
  exact ⟨hdrC ++ idx ++ frames.flatten, _, hwrite, hdec, rfl, rfl, rfl, rfl⟩

/-- Witness for C5: two frames `[1, 2, 3]` and `[4]`. -/
theorem c5_xtc_frames_roundtrip_witness :
    (1 ≤ ([[1, 2, 3], [4]] : List (List Nat)).length ∧
      ([[1, 2, 3], [4]] : List (List Nat)).length < 65536 ∧
      480 < 65536 ∧ 800 < 65536 ∧ 0 < 256 ∧
      (⟨[], [], [], [], 0, 0xFFFF, 0⟩ : XTCMetadata).title = [] ∧
      (⟨[], [], [], [], 0, 0xFFFF, 0⟩ : XTCMetadata).author = [] ∧
      (∀ f ∈ ([[1, 2, 3], [4]] : List (List Nat)), f.length < 2 ^ 32) ∧
      48 + 16 * ([[1, 2, 3], [4]] : List (List Nat)).length +
        (([[1, 2, 3], [4]] : List (List Nat)).map List.length).sum < 2 ^ 64) ∧
    (∃ data dec, xtcWrite 480 800 0 ⟨[], [], [], [], 0, 0xFFFF, 0⟩ [] [[1, 2, 3], [4]]
        = .ok data ∧
      xtcDecode data = .ok dec ∧ dec.frames = [[1, 2, 3], [4]] ∧
      dec.pageCount = ([[1, 2, 3], [4]] : List (List Nat)).length ∧
      dec.chapters = [] ∧ dec.metadata = none) :=
  ⟨⟨by decide, by decide, by decide, by decide, by decide, by decide, by decide,
      by decide, by decide⟩,
    c5_xtc_frames_roundtrip 480 800 0 ⟨[], [], [], [], 0, 0xFFFF, 0⟩ [[1, 2, 3], [4]]
      (by decide) (by decide) (by decide) (by decide) (by decide) (by decide) (by decide)
      (by decide) (by decide)⟩

/-- C10: calling the container writer with an empty frame list raises
`ValueError("No frames provided")` before the output path is opened or created:
the write fails with that error and the file-system model is left untouched
(no entry is produced for the path, not even an empty container). -/
theorem c10_empty_frames_error (width height dir : Nat) (metadata : XTCMetadata)
    (chapters : List XTCChapter) (path : String) (fs : String → Option (List Nat)) :
    xtcWrite width height dir metadata chapters [] = .error "No frames provided" ∧
    xtcWriteFile width height dir metadata chapters path [] fs
      = .error "No frames provided" :=
  ⟨rfl, rfl⟩

set_option maxRecDepth 1000000 in
/-- C1 (code bug): a container written with TWO chapters decodes to ONE chapter
record, because `XTCReader.decode` passes the `has_chapters` flag byte (1) as
the record count of `_read_chapters` instead of the chapter count (2) stored in
the metadata block.  The single decoded record is chapter "A" (byte 65); the
metadata block still reports `chapter_count = 2`. -/
theorem c1_reader_chapter_count_bug :
    ((xtcWrite 480 800 0 ⟨[], [], [], [], 0, 0xFFFF, 0⟩
        [⟨[65], 0, 0⟩, ⟨[66], 1, 1⟩] [[7], [8]]).bind xtcDecode).map
      (fun dec => (dec.chapters, dec.pageCount, dec.metadata.map XTCMetadata.chapterCount))
      = .ok ([⟨[65], 0, 0⟩], 2, some 2) := by
  decide

/-- Byte-level model of `XTContainerAsset._convert_impl` with no `page_spec`
metadata (the claim's concatenation pipeline sets none): read the container's
frames, raise if there are none, sniff the first frame's magic, and return the
frame blobs.  Chapters read by the `XTCReader` are dropped on the floor —
nothing carries them. -/
def xtContainerConvert (data : List Nat) : Except String (List (List Nat)) := do
  let dec ← xtcDecode data
  match dec.frames with
  | [] => Except.error "XTC file contains no frames"
  | f0 :: _ => do
    let magic ← unpackLE 4 f0 0
    if magic = xthMagic ∨ magic = xtgMagic then Except.ok dec.frames
    else Except.error "Unknown frame format in XTC"

/-- Model of `write_xtc` in `xtctool/cli/convert.py`: it builds an `XTCWriter`
from the config (default title/author/publisher empty, language "en-US") and
NEVER passes any chapters, so the combined container is written with an empty
chapter list. -/
def writeXtcCli (w h createTime : Nat) (frames : List (List Nat)) :
    Except String (List Nat) :=
  xtcWrite w h 0 ⟨[], [], [], [101, 110, 45, 85, 83], createTime, 0xFFFF, 0⟩ [] frames

set_option maxRecDepth 1000000 in
/-- C2 (code bug): concatenating container A (2 one-pixel XTH pages, chapters
"A" at [0,0] and "B" at [1,1]) with container B (2 pages, chapters "C", "D")
through `XTContainerAsset._convert_impl` + `write_xtc` yields a container with
all 4 frames but ZERO chapters (`has_chapters = 0`), where the claim and the
repo's own test require 4 chapters at pages [0,0],[1,1],[2,2],[3,3]. -/
theorem c2_concat_drops_chapters :
    ((do
      let f ← xthEncode (fun _ _ => 0) 1 1
      let a ← xtcWrite 480 800 0 ⟨[], [], [], [], 0, 0xFFFF, 0⟩
        [⟨[65], 0, 0⟩, ⟨[66], 1, 1⟩] [f, f]
      let b ← xtcWrite 480 800 0 ⟨[], [], [], [], 0, 0xFFFF, 0⟩
        [⟨[67], 0, 0⟩, ⟨[68], 1, 1⟩] [f, f]
      let fa ← xtContainerConvert a
      let fb ← xtContainerConvert b
      let out ← writeXtcCli 480 800 0 (fa ++ fb)
      let dec ← xtcDecode out
      Except.ok (dec.chapters.length, dec.frames.length, dec.hasChapters))
      : Except String (Nat × Nat × Nat)) = .ok (0, 4, 0) := by
  decide

/-! Floyd-Steinberg quantizer (`xtctool/algo/dithering.py`,
`_floyd_steinberg_core_4level`) and the plain-thresholding fallback of
`XTHWriter._convert_to_4level` (`xtctool/core/xth.py` lines 66-74).

The float32 working array is modelled with rationals: at `strength = 0` every
error term is multiplied by an exact 0, and IEEE float addition of ±0.0 leaves
every finite value unchanged, so the rational model is exact on this path.
Thresholds (Python ints converted to floats in the core) are rationals. -/

/-- Single in-place update `working[y, x] += dv` of the numpy working array. -/
def pointUpd (f : Nat → Nat → ℚ) (y x : Nat) (dv : ℚ) : Nat → Nat → ℚ :=
  fun r c => if r = y ∧ c = x then f r c + dv else f r c

/-- State of the dithering loop: the mutable working copy and the result grid. -/
structure FSState where
  working : Nat → Nat → ℚ
  result : Nat → Nat → Nat

/-- Quantization step of `_floyd_steinberg_core_4level`: the if/elif chain
classifying `old_val` into `(level, new_val)`. -/
def classify4 (v t1 t2 t3 : ℚ) : Nat × ℚ :=
  if v < t1 then (0, 0)
  else if v < t2 then (1, 85)
  else if v < t3 then (2, 170)
  else (3, 255)

/-- One iteration of the pixel loop of `_floyd_steinberg_core_4level`: classify
`working[y, x]`, store the level, and diffuse `error = old - new` to the
right (7/16), below-left (3/16), below (5/16) and below-right (1/16)
neighbours that exist, each weight scaled by `strength`. -/
def fsVisit (h w : Nat) (t1 t2 t3 strength : ℚ) (st : FSState) (y x : Nat) : FSState :=
  let oldVal := st.working y x
  let lv := classify4 oldVal t1 t2 t3
  let error := oldVal - lv.2
  let wRight := 7/16 * strength
  let wBL := 3/16 * strength
  let wB := 5/16 * strength
  let wBR := 1/16 * strength
  let working1 := if x + 1 < w then pointUpd st.working y (x + 1) (error * wRight)
    else st.working
  let working2 := if y + 1 < h then
      (let wa := if 0 < x then pointUpd working1 (y + 1) (x - 1) (error * wBL) else working1
       let wb := pointUpd wa (y + 1) x (error * wB)
       if x + 1 < w then pointUpd wb (y + 1) (x + 1) (error * wBR) else wb)
    else working1
  ⟨working2, fun r c => if r = y ∧ c = x then lv.1 else st.result r c⟩

/-- Model of `_floyd_steinberg_core_4level`: raster scan (rows top to bottom,
columns left to right) over a working copy of the grid, returning the result
levels. -/
def floydSteinbergCore4 (grid : Nat → Nat → Nat) (h w : Nat) (t1 t2 t3 strength : ℚ) :
    Nat → Nat → Nat :=
  ((List.range h).foldl (fun st y =>
      (List.range w).foldl (fun st x => fsVisit h w t1 t2 t3 strength st y x) st)
    ⟨fun r c => ((grid r c : ℚ)), fun _ _ => 0⟩).result

/-- Sequential boolean-mask classification of the non-dithering branch of
`_convert_to_4level`: `result[gray < t1] = 0`, then `result[t1 <= gray < t2] = 1`,
then `result[t2 <= gray < t3] = 2`, then `result[gray >= t3] = 3`, over a
zero-initialised array. -/
def threshold4Mask (g t1 t2 t3 : ℚ) : Nat :=
  if t3 ≤ g then 3
  else if t2 ≤ g ∧ g < t3 then 2
  else if t1 ≤ g ∧ g < t2 then 1
  else if g < t1 then 0
  else 0

/-- Model of the `enable_dithering = False` branch of
`XTHWriter._convert_to_4level`: plain per-sample thresholding. -/
def convertTo4LevelNoDither (grid : Nat → Nat → Nat) (t1 t2 t3 : ℚ) : Nat → Nat → Nat :=
  fun r c => threshold4Mask ((grid r c : ℚ)) t1 t2 t3

theorem classify4_eq_mask (g t1 t2 t3 : ℚ) (h12 : t1 ≤ t2) (h23 : t2 ≤ t3) :
    (classify4 g t1 t2 t3).1 = threshold4Mask g t1 t2 t3 := by
  unfold classify4 threshold4Mask
  rcases lt_or_le g t1 with h1 | h1
  · rw [if_pos h1,
      if_neg (show ¬t3 ≤ g by intro ha; linarith),
      if_neg (show ¬(t2 ≤ g ∧ g < t3) by rintro ⟨ha, -⟩; linarith),
      if_neg (show ¬(t1 ≤ g ∧ g < t2) by rintro ⟨ha, -⟩; linarith),
      if_pos h1]
  · rcases lt_or_le g t2 with h2 | h2
    · rw [if_neg (not_lt.mpr h1), if_pos h2,
        if_neg (show ¬t3 ≤ g by intro ha; linarith),
        if_neg (show ¬(t2 ≤ g ∧ g < t3) by rintro ⟨ha, -⟩; linarith),
        if_pos (show t1 ≤ g ∧ g < t2 from ⟨h1, h2⟩)]
    · rcases lt_or_le g t3 with h3 | h3
      · rw [if_neg (not_lt.mpr h1), if_neg (not_lt.mpr h2), if_pos h3,
          if_neg (show ¬t3 ≤ g by intro ha; linarith),
          if_pos (show t2 ≤ g ∧ g < t3 from ⟨h2, h3⟩)]
      · rw [if_neg (not_lt.mpr h1), if_neg (not_lt.mpr h2), if_neg (not_lt.mpr h3),
          if_pos h3]

theorem pointUpd_add_zero (f : Nat → Nat → ℚ) (y x : Nat) (r c : Nat) :
    pointUpd f y x 0 r c = f r c := by
  unfold pointUpd
  split <;> simp

theorem fsVisit_zero_working (h w : Nat) (t1 t2 t3 : ℚ) (st : FSState) (y x r c : Nat) :
    (fsVisit h w t1 t2 t3 0 st y x).working r c = st.working r c := by
  simp [fsVisit, pointUpd, ite_apply, mul_zero, add_zero, ite_self]

theorem fsVisit_zero_result (h w : Nat) (t1 t2 t3 : ℚ) (st : FSState) (y x r c : Nat) :
    (fsVisit h w t1 t2 t3 0 st y x).result r c
      = if r = y ∧ c = x then (classify4 (st.working y x) t1 t2 t3).1 else st.result r c :=
  rfl

theorem fs_row_zero (h w : Nat) (t1 t2 t3 : ℚ) (grid : Nat → Nat → Nat) (y : Nat)
    (xs : List Nat) (st : FSState)
    (hwk : ∀ r c, st.working r c = ((grid r c : ℚ))) :
    (∀ r c, (xs.foldl (fun st x => fsVisit h w t1 t2 t3 0 st y x) st).working r c
      = ((grid r c : ℚ))) ∧
    (∀ r c, (xs.foldl (fun st x => fsVisit h w t1 t2 t3 0 st y x) st).result r c
      = if r = y ∧ c ∈ xs then (classify4 ((grid r c : ℚ)) t1 t2 t3).1 else st.result r c) := by
  induction xs generalizing st with
  | nil =>
    exact ⟨hwk, by intro r c; simp⟩
  | cons x xs ih =>
    have hwk1 : ∀ r c, (fsVisit h w t1 t2 t3 0 st y x).working r c = ((grid r c : ℚ)) :=
      fun r c => (fsVisit_zero_working h w t1 t2 t3 st y x r c).trans (hwk r c)
    obtain ⟨ihw, ihr⟩ := ih (fsVisit h w t1 t2 t3 0 st y x) hwk1
    refine ⟨fun r c => by rw [List.foldl_cons]; exact ihw r c, fun r c => ?_⟩
    rw [List.foldl_cons, ihr r c, fsVisit_zero_result]
    by_cases hry : r = y
    · by_cases hmem : c ∈ xs
      · rw [if_pos ⟨hry, hmem⟩, if_pos ⟨hry, List.mem_cons_of_mem _ hmem⟩]
      · by_cases hcx : c = x
        · rw [if_neg (by tauto : ¬(r = y ∧ c ∈ xs)), if_pos ⟨hry, hcx⟩,
            if_pos ⟨hry, by rw [hcx]; exact List.mem_cons_self _ _⟩, hwk, hry, hcx]
        · rw [if_neg (by tauto : ¬(r = y ∧ c ∈ xs)), if_neg (by tauto : ¬(r = y ∧ c = x)),
            if_neg (by
              rintro ⟨-, hm⟩
              rcases List.mem_cons.mp hm with he | ht
              · exact hcx he
              · exact hmem ht)]
    · rw [if_neg (by tauto : ¬(r = y ∧ c ∈ xs)), if_neg (by tauto : ¬(r = y ∧ c = x)),
        if_neg (by tauto : ¬(r = y ∧ c ∈ x :: xs))]

theorem fs_rows_zero (h w : Nat) (t1 t2 t3 : ℚ) (grid : Nat → Nat → Nat)
    (ys : List Nat) (st : FSState)
    (hwk : ∀ r c, st.working r c = ((grid r c : ℚ))) :
    (∀ r c, (ys.foldl (fun st y =>
        (List.range w).foldl (fun st x => fsVisit h w t1 t2 t3 0 st y x) st) st).working r c
      = ((grid r c : ℚ))) ∧
    (∀ r c, (ys.foldl (fun st y =>
        (List.range w).foldl (fun st x => fsVisit h w t1 t2 t3 0 st y x) st) st).result r c
      = if r ∈ ys ∧ c < w then (classify4 ((grid r c : ℚ)) t1 t2 t3).1 else st.result r c) := by
  induction ys generalizing st with
  | nil =>
    exact ⟨hwk, by intro r c; simp⟩
  | cons y ys ih =>
    obtain ⟨rw1, rr1⟩ := fs_row_zero h w t1 t2 t3 grid y (List.range w) st hwk
    obtain ⟨ihw, ihr⟩ := ih _ rw1
    refine ⟨fun r c => by rw [List.foldl_cons]; exact ihw r c, fun r c => ?_⟩
    rw [List.foldl_cons, ihr r c, rr1 r c]
    by_cases hcw : c < w
    · by_cases hmem : r ∈ ys
      · rw [if_pos ⟨hmem, hcw⟩, if_pos ⟨List.mem_cons_of_mem _ hmem, hcw⟩]
      · by_cases hry : r = y
        · rw [if_neg (by tauto : ¬(r ∈ ys ∧ c < w)),
            if_pos ⟨hry, List.mem_range.mpr hcw⟩,
            if_pos ⟨by rw [hry]; exact List.mem_cons_self _ _, hcw⟩]
        · rw [if_neg (by tauto : ¬(r ∈ ys ∧ c < w)),
            if_neg (by tauto : ¬(r = y ∧ c ∈ List.range w)),
            if_neg (by
              rintro ⟨hm, -⟩
              rcases List.mem_cons.mp hm with he | ht
              · exact hry he
              · exact hmem ht)]
    · rw [if_neg (by tauto : ¬(r ∈ ys ∧ c < w)),
        if_neg (by
          rintro ⟨-, hm⟩
          exact hcw (List.mem_range.mp hm)),
        if_neg (by tauto : ¬(r ∈ (y :: ys) ∧ c < w))]

/-- C7: quantizing with dither strength 0 produces exactly the same quantized
grid as plain per-sample thresholding (the non-dithering branch of
`_convert_to_4level`): each sample is classified into the smallest level whose
threshold it is below, the last level catching samples at or above the top
threshold, and no neighbouring sample is affected. -/
theorem c7_zero_strength_is_thresholding (grid : Nat → Nat → Nat) (h w : Nat)
    (t1 t2 t3 : ℚ) (h12 : t1 ≤ t2) (h23 : t2 ≤ t3) (r c : Nat) (hr : r < h) (hc : c < w) :
    floydSteinbergCore4 grid h w t1 t2 t3 0 r c
      = convertTo4LevelNoDither grid t1 t2 t3 r c := by
  unfold floydSteinbergCore4
  obtain ⟨-, hres⟩ := fs_rows_zero h w t1 t2 t3 grid (List.range h)
    ⟨fun r c => ((grid r c : ℚ)), fun _ _ => 0⟩ (fun _ _ => rfl)
  rw [hres r c, if_pos ⟨List.mem_range.mpr hr, hc⟩]
  exact classify4_eq_mask _ t1 t2 t3 h12 h23

/-- Witness for C7 at a 1-by-1 grid with value 100 and the default thresholds. -/
theorem c7_zero_strength_is_thresholding_witness :
    ((85 : ℚ) ≤ 170 ∧ (170 : ℚ) ≤ 255 ∧ 0 < 1 ∧ 0 < 1) ∧
    floydSteinbergCore4 (fun _ _ => 100) 1 1 85 170 255 0 0 0
      = convertTo4LevelNoDither (fun _ _ => 100) 85 170 255 0 0 :=
  ⟨⟨by norm_num, by norm_num, by decide, by decide⟩,
    c7_zero_strength_is_thresholding (fun _ _ => 100) 1 1 85 170 255
      (by norm_num) (by norm_num) 0 0 (by decide) (by decide)⟩

/-! Page-selection utilities (`xtctool/utils/pages.py`).  Python `str` values
are modelled as `List Char`; `int(...)` raising `ValueError` is modelled with
`Except`. -/

/-- Model of Python `str.split(sep)` for a one-character separator. -/
def pySplit (sep : Char) : List Char → List (List Char)
  | [] => [[]]
  | c :: cs =>
    match pySplit sep cs with
    | [] => [[c]]
    | g :: gs => if c = sep then [] :: g :: gs else (c :: g) :: gs

/-- Model of Python `str.strip()` (ASCII whitespace). -/
def pyStrip (s : List Char) : List Char :=
  ((s.dropWhile Char.isWhitespace).reverse.dropWhile Char.isWhitespace).reverse

/-- Numeric value of a decimal digit character. -/
def digitVal (c : Char) : Nat := c.toNat - 48

/-- Value of a non-empty all-digit string. -/
def digitsVal (ds : List Char) : Nat := ds.foldl (fun a c => 10 * a + digitVal c) 0

/-- Digit-string parser used by `pyInt`. -/
def pyIntOfDigits (ds : List Char) : Except String Int :=
  if ds ≠ [] ∧ ds.all Char.isDigit then .ok (digitsVal ds)
  else .error "ValueError: invalid literal for int()"

/-- Model of Python `int(s)`: optional sign, decimal digits, surrounding
whitespace allowed, `ValueError` otherwise. -/
def pyInt (s : List Char) : Except String Int :=
  match pyStrip s with
  | '-' :: ds => (pyIntOfDigits ds).map (fun n => -n)
  | '+' :: ds => pyIntOfDigits ds
  | ds => pyIntOfDigits ds

/-- Model of Python `list(range(a, b + 1))` over `Int` (empty when `b < a`). -/
def intRange (a b : Int) : List Int := (List.range (b + 1 - a).toNat).map (fun k => a + k)

/-- Loop body of `parse_page_range` for one comma-separated token:
strip, then either `-B` (first B pages), a range `A-B`/`A-` (dash after the
first character, split at the first such dash, missing right end means
`total_pages`), or a single page number. -/
def partPages (part : List Char) (totalPages : Nat) : Except String (List Int) :=
  let part := pyStrip part
  if part.head? = some '-' ∧ 1 < part.length then do
    let e ← pyInt (part.drop 1)
    Except.ok (intRange 1 e)
  else if (part.drop 1).contains '-' then do
    let start ← pyInt (part.take 1 ++ (part.drop 1).takeWhile (· ≠ '-'))
    let e ← if (((part.drop 1).dropWhile (· ≠ '-')).drop 1) = [] then
        Except.ok ((totalPages : Int))
      else pyInt (((part.drop 1).dropWhile (· ≠ '-')).drop 1)
    Except.ok (intRange start e)
  else do
    let n ← pyInt part
    Except.ok [n]

/-- Accumulation loop of `parse_page_range`: `pages.extend(...)` per token. -/
def collectPages (parts : List (List Char)) (totalPages : Nat) : Except String (List Int) :=
  parts.foldlM (fun acc part => do
    let ps ← partPages part totalPages
    Except.ok (acc ++ ps)) []

/-- Final loop of `parse_page_range`: drop pages outside `[1, total_pages]` and
duplicates (the `seen` set modelled as a list), keeping first occurrences in
order. -/
def dedupInRange (pages : List Int) (totalPages : Nat) : List Int :=
  (pages.foldl (fun st p =>
    if 1 ≤ p ∧ p ≤ (totalPages : Int) ∧ p ∉ st.1 then (p :: st.1, st.2 ++ [p]) else st)
    (([], []) : List Int × List Int)).2

/-- Model of `parse_page_range(spec, total_pages)`. -/
def parse_page_range (spec : List Char) (totalPages : Nat) : Except String (List Int) := do
  let pages ← collectPages (pySplit ',' spec) totalPages
  Except.ok (dedupInRange pages totalPages)

/-- Specification-side restatement of the dedup/филter pass, written from the
claim's words: keep each page's first occurrence, in order, dropping pages
outside `[1, total_pages]`. -/
def keepFirstValid (totalPages : Nat) : List Int → List Int
  | [] => []
  | p :: ps =>
    if 1 ≤ p ∧ p ≤ (totalPages : Int) then
      p :: keepFirstValid totalPages (ps.filter (fun q => q ≠ p))
    else keepFirstValid totalPages ps
  termination_by l => l.length
  decreasing_by
    · simp only [List.length_cons]
      exact Nat.lt_succ_of_le (List.length_filter_le _ _)
    · simp

theorem collectPages_ok (total : Nat) (ts : List (List Char)) (pss : List (List Int))
    (hfa : List.Forall₂ (fun t ps => partPages t total = .ok ps) ts pss) :
    collectPages ts total = .ok pss.flatten := by
  suffices hgen : ∀ acc : List Int,
      (ts.foldlM (fun acc part => do
        let ps ← partPages part total
        Except.ok (acc ++ ps)) acc) = .ok (acc ++ pss.flatten) by
    have := hgen []
    rw [List.nil_append] at this
    exact this
  induction hfa with
  | nil =>
    intro acc
    have he : (acc ++ ([] : List (List Int)).flatten) = acc := by simp
    rw [he]
    rfl
  | cons hab hrest ih =>
    intro acc
    rename_i t ps ts' pss'
    rw [List.foldlM_cons, hab, except_bind_ok, except_bind_ok, ih (acc ++ ps)]
    simp [List.append_assoc]

theorem keepFirstValid_cons (total : Nat) (p : Int) (ps : List Int) :
    keepFirstValid total (p :: ps)
      = if 1 ≤ p ∧ p ≤ (total : Int) then
          p :: keepFirstValid total (ps.filter (fun q => q ≠ p))
        else keepFirstValid total ps := by
  rw [keepFirstValid]

theorem dedup_go (total : Nat) (l seen valid : List Int) :
    (l.foldl (fun st p =>
      if 1 ≤ p ∧ p ≤ (total : Int) ∧ p ∉ st.1 then (p :: st.1, st.2 ++ [p]) else st)
      (seen, valid)).2
    = valid ++ keepFirstValid total (l.filter (fun p => decide (p ∉ seen))) := by
  induction l generalizing seen valid with
  | nil => simp [keepFirstValid]
  | cons p l ih =>
    rw [List.foldl_cons]
    by_cases hrange : 1 ≤ p ∧ p ≤ (total : Int)
    · by_cases hseen : p ∈ seen
      · rw [if_neg (by tauto), ih, List.filter_cons, if_neg (by simp [hseen])]
      · rw [if_pos ⟨hrange.1, hrange.2, hseen⟩, ih]
        rw [List.filter_cons, if_pos (by simp [hseen]),
          keepFirstValid_cons, if_pos hrange, List.filter_filter]
        rw [show (List.filter (fun q => decide (q ≠ p) && decide (q ∉ seen)) l)
            = List.filter (fun q => decide (q ∉ p :: seen)) l from
          List.filter_congr (fun q _ => by
            by_cases h1 : q = p <;> by_cases h2 : q ∈ seen <;> simp [h1, h2])]
        simp [List.append_assoc]
    · rw [if_neg (by tauto), ih, List.filter_cons]
      by_cases hseen : p ∈ seen
      · rw [if_neg (by simp [hseen])]
      · rw [if_pos (by simp [hseen]), keepFirstValid_cons, if_neg hrange]

theorem dedupInRange_eq_keepFirstValid (total : Nat) (l : List Int) :
    dedupInRange l total = keepFirstValid total l := by
  unfold dedupInRange
  rw [dedup_go total l [] []]
  simp

/-- C8: for every page spec string whose comma-separated tokens each expand to
a page list by the source's per-token rules ('N', 'A-B', 'A-', '-B'),
`parse_page_range` returns the tokens' pages concatenated in the order given
(not sorted), with duplicates dropped keeping the first occurrence and any page
outside `[1, total_pages]` silently dropped; in particular
`expand("1-4,7,10-12", 15) = [1,2,3,4,7,10,11,12]`,
`expand("5,3,1", 10) = [5,3,1]` and `expand("20-30", 10) = []`. -/
theorem c8_parse_page_range :
    (∀ (total : Nat) (spec : List Char) (pss : List (List Int)),
      List.Forall₂ (fun t ps => partPages t total = .ok ps) (pySplit ',' spec) pss →
      parse_page_range spec total = .ok (keepFirstValid total pss.flatten)) ∧
    parse_page_range ("1-4,7,10-12".toList) 15 = .ok [1, 2, 3, 4, 7, 10, 11, 12] ∧
    parse_page_range ("5,3,1".toList) 10 = .ok [5, 3, 1] ∧
    parse_page_range ("20-30".toList) 10 = .ok [] := by
  refine ⟨?_, by decide, by decide, by decide⟩
  intro total spec pss hfa
  unfold parse_page_range
  rw [collectPages_ok total (pySplit ',' spec) pss hfa, except_bind_ok,
    dedupInRange_eq_keepFirstValid]

/-- Witness for C8: spec "2, 2,99,-2" with 10 total pages; the tokens expand to
[2], [2], [99], [1, 2]; first-occurrence dedup and range filtering keep [2, 1]. -/
theorem c8_parse_page_range_witness :
    List.Forall₂ (fun t ps => partPages t 10 = .ok ps) (pySplit ',' ("2, 2,99,-2".toList))
      [[2], [2], [99], [1, 2]] ∧
    parse_page_range ("2, 2,99,-2".toList) 10
      = .ok (keepFirstValid 10 ([[2], [2], [99], [1, 2]] : List (List Int)).flatten) := by
  have hfa : List.Forall₂ (fun t ps => partPages t 10 = .ok ps)
      (pySplit ',' ("2, 2,99,-2".toList)) [[2], [2], [99], [1, 2]] := by
    show List.Forall₂ _ (pySplit ',' ['2', ',', ' ', '2', ',', '9', '9', ',', '-', '2']) _
    refine List.Forall₂.cons (by decide) (List.Forall₂.cons (by decide)
      (List.Forall₂.cons (by decide) (List.Forall₂.cons (by decide) List.Forall₂.nil)))
  exact ⟨hfa, c8_parse_page_range.1 10 ("2, 2,99,-2".toList) [[2], [2], [99], [1, 2]] hfa⟩

/-! Path / page-spec splitting (`parse_page_spec` in `xtctool/utils/pages.py`). -/

/-- Model of `parse_page_spec(path)`: URLs (http/https/ftp schemes) are never
split; otherwise split at the LAST colon (`rsplit(':', 1)`) when the suffix
after it is non-empty and contains at least one digit; else return the path
unchanged.  `rsplit` is expressed through `reverse`/`takeWhile`/`dropWhile`. -/
def parse_page_spec (path : List Char) : List Char × Option (List Char) :=
  if ["http://".toList, "https://".toList, "ftp://".toList].any
      (fun p => p.isPrefixOf path) then
    (path, none)
  else if path.contains ':' then
    if (path.reverse.takeWhile (fun c => c ≠ ':')).reverse ≠ [] ∧
        ((path.reverse.takeWhile (fun c => c ≠ ':')).reverse.any Char.isDigit) = true then
      (((path.reverse.dropWhile (fun c => c ≠ ':')).drop 1).reverse,
        some ((path.reverse.takeWhile (fun c => c ≠ ':')).reverse))
    else (path, none)
  else (path, none)

/-- Counterexample to C9 as stated: the Windows drive path `C:\a1.pdf` IS split
(its post-colon suffix `\a1.pdf` contains the digit 1), so `parse_page_spec`
does not return every drive-prefixed path unchanged. -/
theorem c9_drive_path_counterexample :
    parse_page_spec ("C:\\a1.pdf".toList) = ("C".toList, some ("\\a1.pdf".toList)) ∧
    parse_page_spec ("C:\\a1.pdf".toList) ≠ ("C:\\a1.pdf".toList, none) := by
  decide

/-- C9 (amended): `parse_page_spec` splits off a page spec at the last colon
exactly when the path is not URL-scheme-prefixed and the suffix after that
colon is non-empty and contains at least one digit; URL schemes are never
split, and a path whose post-colon suffix contains no digit — such as the drive
path `C:\a.pdf` — is returned unchanged (but a drive path with a digit after
the colon is split, see the counterexample); `parse_spec("C:\a.pdf") =
("C:\a.pdf", None)` and `parse_spec("file.pdf:1-4") = ("file.pdf", "1-4")`. -/
theorem c9_parse_page_spec_amended :
    (∀ path : List Char,
      (["http://".toList, "https://".toList, "ftp://".toList].any
        (fun p => p.isPrefixOf path)) = true →
      parse_page_spec path = (path, none)) ∧
    (∀ path : List Char,
      (["http://".toList, "https://".toList, "ftp://".toList].any
        (fun p => p.isPrefixOf path)) = false →
      path.contains ':' = true →
      ((path.reverse.takeWhile (fun c => c ≠ ':')).reverse = [] ∨
        ((path.reverse.takeWhile (fun c => c ≠ ':')).reverse.any Char.isDigit) = false) →
      parse_page_spec path = (path, none)) ∧
    (∀ path : List Char,
      (["http://".toList, "https://".toList, "ftp://".toList].any
        (fun p => p.isPrefixOf path)) = false →
      path.contains ':' = true →
      (path.reverse.takeWhile (fun c => c ≠ ':')).reverse ≠ [] →
      ((path.reverse.takeWhile (fun c => c ≠ ':')).reverse.any Char.isDigit) = true →
      parse_page_spec path
        = (((path.reverse.dropWhile (fun c => c ≠ ':')).drop 1).reverse,
            some ((path.reverse.takeWhile (fun c => c ≠ ':')).reverse))) ∧
    parse_page_spec ("C:\\a.pdf".toList) = ("C:\\a.pdf".toList, none) ∧
    parse_page_spec ("file.pdf:1-4".toList) = ("file.pdf".toList, some ("1-4".toList)) := by
  refine ⟨?_, ?_, ?_, by decide, by decide⟩
  · intro path hurl
    unfold parse_page_spec
    rw [if_pos hurl]
  · intro path hurl hcolon hnodigit
    unfold parse_page_spec
    rw [if_neg (by rw [hurl]; simp), if_pos hcolon, if_neg ?_]
    rintro ⟨hne, hdig⟩
    rcases hnodigit with he | hf
    · exact hne he
    · rw [hdig] at hf
      cases hf
  · intro path hurl hcolon hne hdig
    unfold parse_page_spec
    rw [if_neg (by rw [hurl]; simp), if_pos hcolon, if_pos ⟨hne, hdig⟩]

/-- Witness for C9 (amended) at `http://x:1`, `a:b` and `x:7`. -/
theorem c9_parse_page_spec_amended_witness :
    ((["http://".toList, "https://".toList, "ftp://".toList].any
        (fun p => p.isPrefixOf ("http://x:1".toList))) = true ∧
      parse_page_spec ("http://x:1".toList) = ("http://x:1".toList, none)) ∧
    parse_page_spec ("a:b".toList) = ("a:b".toList, none) ∧
    parse_page_spec ("x:7".toList) = ("x".toList, some ['7']) :=
  ⟨⟨by decide, c9_parse_page_spec_amended.1 ("http://x:1".toList) (by decide)⟩,
    by
      have := c9_parse_page_spec_amended.2.1 ("a:b".toList) (by decide) (by decide)
        (Or.inr (by decide))
      exact this,
    by
      have := c9_parse_page_spec_amended.2.2.1 ("x:7".toList) (by decide) (by decide)
        (by decide) (by decide)
      exact this⟩

/-! Asset metadata propagation (`xtctool/assets/base.py` `Asset.convert` /
`Asset.propagate_metadata`, and `xtctool/assets/xtframe.py` `XTFrameAsset`).

A Python object's `metadata` attribute is modelled as `Option MetaMap`:
`Asset.__init__` sets it (`some`), but `XTFrameAsset.__init__` never calls
`super().__init__()`, so on a frame asset the attribute is absent (`none`) and
`target.metadata.update(...)` raises `AttributeError`. -/

/-- Python `dict[str, str]` modelled as an association list (keys unique by
construction of `dictSet`). -/
def MetaMap : Type := List (String × String)

/-- Single `d[k] = v` assignment: replace the key's entry or append it. -/
def dictSet (m : List (String × String)) (k v : String) : List (String × String) :=
  if m.any (fun kv => kv.1 = k) then m.map (fun kv => if kv.1 = k then (k, v) else kv)
  else m ++ [(k, v)]

/-- Python `target.update(source)`: source entries win on key collision,
other target entries are untouched. -/
def dictUpdate (t s : List (String × String)) : List (String × String) :=
  s.foldl (fun t kv => dictSet t kv.1 kv.2) t

/-- State of an `XTFrameAsset` object: `__init__` stores `data`, `format` and
`_temp_file` but does NOT call `super().__init__()`, so the `metadata`
attribute slot stays absent. -/
structure XTFrameAssetObj where
  data : List Nat
  format : String
  metadataAttr : Option (List (String × String))

/-- Model of `XTFrameAsset.__init__(data, format)`. -/
def xtFrameAssetInit (data : List Nat) (format : String) : XTFrameAssetObj :=
  ⟨data, format, none⟩

/-- Model of `Asset.propagate_metadata`: `target.metadata.update(self.metadata)`;
reading a missing `metadata` attribute raises `AttributeError`. -/
def propagate_metadata (srcMeta : List (String × String)) (tgt : XTFrameAssetObj) :
    Except String XTFrameAssetObj :=
  match tgt.metadataAttr with
  | none => .error "AttributeError: XTFrameAsset object has no attribute metadata"
  | some m => .ok { tgt with metadataAttr := some (dictUpdate m srcMeta) }

/-- Model of `Asset.convert` for `ImageAsset` (auto-propagation enabled, the
result is a fresh `XTFrameAsset`, not `self`): run `_convert_impl` — which ends
in `XTFrameAsset(frame_data, format_type)` — then propagate the source's
metadata onto the single returned asset. -/
def imageAssetConvert (srcMeta : List (String × String)) (frameData : List Nat)
    (fmt : String) : Except String XTFrameAssetObj :=
  propagate_metadata srcMeta (xtFrameAssetInit frameData fmt)

/-- C3 (code bug): for ANY source metadata map (even one carrying just
`page_spec`), converting an image asset to its frame raises
`AttributeError` inside the metadata-propagation wrapper, because
`XTFrameAsset.__init__` never initialises the `metadata` attribute; no
returned asset ever carries the source's metadata. -/
theorem c3_metadata_propagation_attribute_error
    (srcMeta : List (String × String)) (frameData : List Nat) (fmt : String) :
    imageAssetConvert srcMeta frameData fmt
      = .error "AttributeError: XTFrameAsset object has no attribute metadata" := rfl

end Xtctool
